import Mathlib

/-!
# sam.cpp interactive viewer (`examples/main.cpp`): embedding and properties

Shallow embedding of the display-fit resampler, the per-frame pointer tracking
and the mask-overlay drawing of `examples/main.cpp`.

Modelling conventions.
* A `float` is an IEEE 754 binary32 number, modelled as the rational it denotes. Every
  `float` operation (`+`, `-`, `*`, `/`, conversion from `int`) is the exact rational
  operation followed by `fl`, the rounding to binary32 (nearest, ties to even, subnormals
  included), as a compiler with `FLT_EVAL_METHOD = 0` performs it. `0.5f` is `1/2` and `0.05f`
  is `13421773 / 2^28`.
* A `float` operation that overflows or divides by zero yields an infinity or a NaN; these,
  and an indexed vector access outside the vector, have no value in the model: the embedded
  function returns `none`.
* `int` values are unbounded integers (no wrap-around); a `float → int` conversion truncates
  toward zero.
* Calls into SDL, OpenGL, stb_image and the SAM library are fields of `Services`, acting on
  an abstract world `W`; what the user does to the two ImGui checkboxes in a frame is part of
  the frame's input.
-/

namespace Sam

/-! ## Data model -/

/-- Image `sam_image_u8`: `nx`, `ny` are C `int`s, `data` is a byte vector. -/
structure sam_image_u8 where
  nx : Int
  ny : Int
  data : List UInt8
deriving DecidableEq, Repr

/-- Point `sam_point` holding two `float`s. -/
structure sam_point where
  x : ℚ
  y : ℚ
deriving DecidableEq, Repr

/-- Invariant of an RGB raster: non-negative sides and `nx*ny*3` bytes. -/
def sam_image_u8.IsRGB (img : sam_image_u8) : Prop :=
  0 ≤ img.nx ∧ 0 ≤ img.ny ∧ (img.data.length : Int) = img.nx * img.ny * 3

/-! ## Binary32 arithmetic -/

/-- Power of two with an integer exponent. -/
def pow2 (e : Int) : ℚ :=
  if 0 ≤ e then ((2 ^ e.toNat : Nat) : ℚ) else 1 / ((2 ^ (-e).toNat : Nat) : ℚ)

/-- Binary logarithm of a natural number, rounded down (0 at 0), by repeated halving. -/
def ilog2 (fuel n : Nat) : Nat :=
  match fuel with
  | 0 => 0
  | f + 1 => if n < 2 then 0 else ilog2 f (n / 2) + 1

/-- Binade of a non-zero rational: the `e` with `2^e ≤ |q| < 2^(e+1)`. -/
def binade (q : ℚ) : Int :=
  let e0 : Int := (ilog2 q.num.natAbs q.num.natAbs : Int) - (ilog2 q.den q.den : Int)
  if pow2 e0 ≤ |q| then e0 else e0 - 1

/-- Rounding to the nearest integer, ties to the even one. -/
def roundEven (r : ℚ) : Int :=
  let f := ⌊r⌋
  if r - f < 1 / 2 then f
  else if 1 / 2 < r - f then f + 1
  else if f % 2 = 0 then f else f + 1

/-- Exponent of the unit in the last place of binary32 at `q`: 24 significant bits, and
`2^-149` below the normal range. -/
def ulpExp (q : ℚ) : Int := max (binade q - 23) (-149)

/-- Rounding of a rational to binary32: nearest, ties to even (exponent unbounded above). -/
def fl (q : ℚ) : ℚ :=
  if q = 0 then 0 else (roundEven (q / pow2 (ulpExp q)) : ℚ) * pow2 (ulpExp q)

/-- Largest finite binary32 number, `(2^24 - 1) * 2^104`. -/
def maxFinite : ℚ := (2 ^ 24 - 1) * 2 ^ 104

/-- Result of a binary32 operation whose exact value is `q`; `none` when it overflows. -/
def toF32 (q : ℚ) : Option ℚ :=
  if |fl q| ≤ maxFinite then some (fl q) else none

/-- Addition of two `float`s. -/
def fadd (a b : ℚ) : Option ℚ := toF32 (a + b)

/-- Subtraction of two `float`s. -/
def fsub (a b : ℚ) : Option ℚ := toF32 (a - b)

/-- Multiplication of two `float`s. -/
def fmul (a b : ℚ) : Option ℚ := toF32 (a * b)

/-- Division of two `float`s; `none` for a zero divisor. -/
def fdiv (a b : ℚ) : Option ℚ := if b = 0 then none else toF32 (a / b)

/-- Conversion `int → float`. -/
def ofInt (n : Int) : Option ℚ := toF32 (n : ℚ)

/-! ## Primitive operations -/

/-- Conversion `float → int`: truncation toward zero. -/
def truncToInt (q : ℚ) : Int :=
  if 0 ≤ q then ⌊q⌋ else ⌈q⌉

/-- Read `v[i]` of a vector with an `int` index; `none` outside the vector. -/
def readAt (v : List UInt8) (i : Int) : Option UInt8 :=
  if 0 ≤ i then v[i.toNat]? else none

/-- Write `v[i] = b` with an `int` index; `none` outside the vector. -/
def writeAt (v : List UInt8) (i : Int) (b : UInt8) : Option (List UInt8) :=
  if 0 ≤ i ∧ i.toNat < v.length then some (v.set i.toNat b) else none

/-- Loop `for (int i = 0; i < n; ++i) body`, threading a state that may fail. -/
def forLoop {σ : Type} (n : Nat) (body : Nat → σ → Option σ) (s : σ) : Option σ :=
  match n with
  | 0 => some s
  | k + 1 => (forLoop k body s).bind (body k)

/-! ## `downscale_img` -/

/-- Value of `new_width` / `new_height`: `int n = side / scale + 0.5f`. -/
def newSide (side : Int) (scale : ℚ) : Option Int :=
  (ofInt side).bind fun fside =>
  (fdiv fside scale).bind fun quot =>
  (fadd quot (1 / 2)).map truncToInt

/-- Value of `src_x` / `src_y`: `int s = (i + 0.5f) * scale - 0.5f`. -/
def srcCoord (i : Int) (scale : ℚ) : Option Int :=
  (ofInt i).bind fun fi =>
  (fadd fi (1 / 2)).bind fun centre =>
  (fmul centre scale).bind fun scaled =>
  (fsub scaled (1 / 2)).map truncToInt

/-- Body of the pixel loop of `downscale_img` at output pixel `(x, y)`. -/
def copyPixel (img : sam_image_u8) (scale : ℚ) (new_width : Int) (y x : Nat)
    (data : List UInt8) : Option (List UInt8) :=
  let width := img.nx
  (srcCoord x scale).bind fun src_x =>
  (srcCoord y scale).bind fun src_y =>
  let src_index := (src_y * width + src_x) * 3
  let dest_index := ((y : Int) * new_width + (x : Int)) * 3
  forLoop 3 (fun c d => (readAt img.data (src_index + c)).bind (writeAt d (dest_index + c))) data

/-- Function `downscale_img`: nearest-neighbour downscaling. The result is `none` where a
`float` operation has no value, for a negative `resize` argument, or for a read or write
outside a vector. -/
def downscale_img (img : sam_image_u8) (scale : ℚ) : Option sam_image_u8 :=
  (newSide img.nx scale).bind fun new_width =>
  (newSide img.ny scale).bind fun new_height =>
  let size := new_width * new_height * 3
  if size < 0 then none else
  let data0 : List UInt8 := List.replicate size.toNat 0
  (forLoop new_height.toNat
      (fun y => forLoop new_width.toNat (fun x => copyPixel img scale new_width y x)) data0).map
    (fun data => { nx := new_width, ny := new_height, data := data })

/-! ## Reference definitions in the words of the specification -/

/-- Rounding of the specification with every operation rounded to binary32:
`floor(fl(fl(fl(side) / factor) + 0.5))`. -/
def roundedSide (side : Int) (factor : ℚ) : Int :=
  ⌊fl (fl (fl (side : ℚ) / factor) + 1 / 2)⌋

/-- Source coordinate of the specification with every operation rounded to binary32:
`floor(fl(fl(fl(fl(i) + 0.5) * factor) - 0.5))`. -/
def roundedSrc (i : Int) (factor : ℚ) : Int :=
  ⌊fl (fl (fl (fl (i : ℚ) + 1 / 2) * factor) - 1 / 2)⌋

/-- Value of a rational to three decimal places, in thousandths (round-half-up). -/
def toMillis (q : ℚ) : Int := ⌊q * 1000 + 1 / 2⌋

/-! ## External services -/

/-- Texture name of OpenGL. -/
abbrev GLuint := Nat

/-- Window handle of SDL. -/
abbrev SDL_Window := Nat

/-- Display mode of SDL: the fields `w` and `h` read by the program. -/
structure SDL_DisplayMode where
  w : Int
  h : Int
deriving DecidableEq, Repr

/-- Library calls made by `main.cpp`, over an abstract world `W`.
`SDL_GetCurrentDisplayMode` is `none` when SDL returns non-zero; `stbi_load` is `none` for a
null result and otherwise gives `nx`, `ny` and the `nx*ny*3` decoded bytes. -/
structure Services (W : Type) where
  SDL_GetWindowDisplayIndex : SDL_Window → W → Int
  SDL_GetCurrentDisplayMode : Int → W → Option SDL_DisplayMode
  stbi_load : String → W → Option (Int × Int × List UInt8)
  sam_compute_embd_img : sam_image_u8 → W → Bool × W
  sam_compute_masks : sam_image_u8 → sam_point → W → List sam_image_u8 × W
  createGLTexture : sam_image_u8 → W → GLuint × W
  glDeleteTextures : List GLuint → W → W

/-! ## Fitting an image to the screen -/

/-- Function `get_screen_size`; `none` stands for the result `false`. -/
def get_screen_size {W : Type} (E : Services W) (window : Option SDL_Window) (w : W) :
    Option SDL_DisplayMode :=
  let displayIndex : Int :=
    match window with
    | none => 0
    | some win => E.SDL_GetWindowDisplayIndex win w
  if displayIndex < 0 then none else E.SDL_GetCurrentDisplayMode displayIndex w

/-- Constant `margin = 0.05f`: the binary32 number nearest to 0.05. -/
def margin : ℚ := 13421773 / 268435456

/-- Bound `max_width` / `max_height`: `int m = side - margin * side`. -/
def maxSide (side : Int) : Option Int :=
  (ofInt side).bind fun fside =>
  (fmul margin fside).bind fun m =>
  (fsub fside m).map truncToInt

/-- Scale `std::max(scale_x, scale_y)` of `downscale_img_to_screen`, with
`scale_y = (float)img.ny / max_height` and `scale_x = (float)img.nx / max_width`. -/
def fitScale (img : sam_image_u8) (max_width max_height : Int) : Option ℚ :=
  (ofInt img.ny).bind fun fny =>
  (ofInt max_height).bind fun fmh =>
  (fdiv fny fmh).bind fun scale_y =>
  (ofInt img.nx).bind fun fnx =>
  (ofInt max_width).bind fun fmw =>
  (fdiv fnx fmw).bind fun scale_x =>
  some (max scale_x scale_y)

/-- Function `downscale_img_to_screen`: the returned pair is the `bool` result and the image
left in `img`. The result is `none` where `downscale_img` has none or a `float` operation has
no value (a side exceeds its bound while `max_width` or `max_height` is 0). -/
def downscale_img_to_screen {W : Type} (E : Services W) (img : sam_image_u8)
    (window : Option SDL_Window) (w : W) : Option (Bool × sam_image_u8) :=
  match get_screen_size E window w with
  | none => some (false, img)
  | some dm =>
    if dm.h = 0 ∨ dm.w = 0 then some (false, img) else
    (maxSide dm.w).bind fun max_width =>
    (maxSide dm.h).bind fun max_height =>
    if img.ny > max_height ∨ img.nx > max_width then
      (fitScale img max_width max_height).bind fun scale =>
      (downscale_img img scale).map (fun new_img => (true, new_img))
    else some (true, img)

/-- Function `load_image_from_file`; `none` stands for the result `false`. -/
def load_image_from_file {W : Type} (E : Services W) (fname : String) (w : W) :
    Option sam_image_u8 :=
  match E.stbi_load fname w with
  | none => none
  | some (nx, ny, data) => some { nx := nx, ny := ny, data := data }

/-! ## The main loop -/

/-- Events of SDL that `main_loop` distinguishes. `windowClose thisWindow` is a
`SDL_WINDOWEVENT_CLOSE` whose window id is (or is not) the one of the viewer. -/
inductive SDL_Event where
  | quit
  | windowClose (thisWindow : Bool)
  | mouseButtonDown (button : Nat) (x y : Int)
  | mouseMotion (x y : Int)
  | dropFile (file : String)
  | other
deriving DecidableEq, Repr

/-- Constant `SDL_BUTTON_LEFT` of SDL (1 in `SDL_mouse.h`). -/
def SDL_BUTTON_LEFT : Nat := 1

/-- Local variables of `main_loop` that live across frames. -/
structure LoopState where
  img : sam_image_u8
  tex : GLuint
  done : Bool
  x : ℚ
  y : ℚ
  xLast : ℚ
  yLast : ℚ
  masks : List sam_image_u8
  maskTextures : List GLuint
  segmentOnMove : Bool
  outputMultipleMasks : Bool
deriving DecidableEq, Repr

/-- Locals of `main_loop` on entry to the loop. -/
def initLoopState (img : sam_image_u8) (tex : GLuint) : LoopState :=
  { img := img, tex := tex, done := false, x := 0, y := 0, xLast := 0, yLast := 0,
    masks := [], maskTextures := [], segmentOnMove := false, outputMultipleMasks := false }

/-- Body of the `SDL_PollEvent` loop for one event; `computeMasks` is threaded through. The
`Sint32` coordinates of an event are converted to `float` on assignment to `x` and `y`. -/
def processEvent {W : Type} (E : Services W) (window : SDL_Window) (computeMasks : Bool)
    (s : LoopState) (w : W) (event : SDL_Event) : Option (Bool × LoopState × W) :=
  match event with
  | .quit => some (computeMasks, { s with done := true }, w)
  | .windowClose thisWindow =>
    some (computeMasks, (if thisWindow then { s with done := true } else s), w)
  | .mouseButtonDown button ex ey =>
    if button = SDL_BUTTON_LEFT then
      some (true, { s with x := fl (ex : ℚ), y := fl (ey : ℚ) }, w)
    else some (computeMasks, s, w)
  | .mouseMotion ex ey =>
    if s.segmentOnMove then
      some (computeMasks, { s with x := fl (ex : ℚ), y := fl (ey : ℚ) }, w)
    else some (computeMasks, s, w)
  | .dropFile file =>
    match load_image_from_file E file w with
    | none => some (computeMasks, s, w)
    | some loaded =>
      match downscale_img_to_screen E loaded (some window) w with
      | none => none
      | some (_, new_img) =>
        -- a `false` result of `sam_compute_embd_img` is only printed
        let (_, w1) := E.sam_compute_embd_img new_img w
        let (tex, w2) := E.createGLTexture new_img w1
        some (true, { s with tex := tex, img := new_img }, w2)
  | .other => some (computeMasks, s, w)

/-- The `while (SDL_PollEvent(&event))` loop over the events pending in a frame. -/
def pollEvents {W : Type} (E : Services W) (window : SDL_Window) (events : List SDL_Event)
    (computeMasks : Bool) (s : LoopState) (w : W) : Option (Bool × LoopState × W) :=
  match events with
  | [] => some (computeMasks, s, w)
  | event :: rest =>
    (processEvent E window computeMasks s w event).bind
      (fun r => pollEvents E window rest r.1 r.2.1 r.2.2)

/-- Invariant of a single-channel mask: non-negative sides and `nx*ny` bytes. -/
def sam_image_u8.IsMask (mask : sam_image_u8) : Prop :=
  0 ≤ mask.nx ∧ 0 ≤ mask.ny ∧ (mask.data.length : Int) = mask.nx * mask.ny

/-- Construction of `mask_rgb` from a mask: every byte is written to three channels. -/
def mask_to_rgb (mask : sam_image_u8) : Option sam_image_u8 :=
  let size := 3 * mask.nx * mask.ny
  if size < 0 then none else
  let data0 : List UInt8 := List.replicate size.toNat 0
  (forLoop (mask.nx * mask.ny).toNat
      (fun i d =>
        (readAt mask.data i).bind fun v =>
        (writeAt d (3 * (i : Int) + 0) v).bind fun d1 =>
        (writeAt d1 (3 * (i : Int) + 1) v).bind fun d2 =>
        writeAt d2 (3 * (i : Int) + 2) v) data0).map
    (fun data => { nx := mask.nx, ny := mask.ny, data := data })

/-- The loop `for (auto& mask : masks)` that pushes one texture per mask. -/
def uploadMasks {W : Type} (E : Services W) (masks : List sam_image_u8)
    (maskTextures : List GLuint) (w : W) : Option (List GLuint × W) :=
  match masks with
  | [] => some (maskTextures, w)
  | mask :: rest =>
    match mask_to_rgb mask with
    | none => none
    | some mask_rgb =>
      let (t, w1) := E.createGLTexture mask_rgb w
      uploadMasks E rest (maskTextures ++ [t]) w1

/-- The block `if (computeMasks) { ... }`: one call of `sam_compute_masks` at `(x, y)`, then
the old textures are deleted and the new masks uploaded. -/
def computeMasksStep {W : Type} (E : Services W) (s : LoopState) (w : W) :
    Option (LoopState × W) :=
  let pt : sam_point := { x := s.x, y := s.y }
  let (masks, w1) := E.sam_compute_masks s.img pt w
  let w2 := if s.maskTextures.isEmpty then w1 else E.glDeleteTextures s.maskTextures w1
  (uploadMasks E masks [] w2).map
    (fun r => ({ s with masks := masks, maskTextures := r.1 }, r.2))

/-- One `AddImage` call for a mask texture, with its `IM_COL32(r, g, b, a)` colour. -/
structure Overlay where
  tex : GLuint
  r : Nat
  g : Nat
  b : Nat
  a : Nat
deriving DecidableEq, Repr

/-- The loop `for (int i = 0; i < int(maskTextures.size()); ++i)` from index `i` on. -/
def drawAllMasks (i : Nat) (textures : List GLuint) : List Overlay :=
  match textures with
  | [] => []
  | t :: rest =>
    { tex := t, r := if i = 0 then 255 else 0, g := if i = 1 then 255 else 0,
      b := if i = 2 then 255 else 0, a := 172 } :: drawAllMasks (i + 1) rest

/-- Mask overlays issued between `enable_blending` and `disable_blending`. -/
def drawOverlays (maskTextures : List GLuint) (outputMultipleMasks : Bool) : List Overlay :=
  if outputMultipleMasks then drawAllMasks 0 maskTextures
  else
    match maskTextures with
    | [] => []
    | t :: _ => [{ tex := t, r := 0, g := 0, b := 255, a := 128 }]

/-- What arrives during one frame: the pending events and whether the user clicks the
checkboxes "Segment on hover" and "Output multiple masks". -/
structure FrameInput where
  events : List SDL_Event
  clickSegmentOnMove : Bool
  clickOutputMultipleMasks : Bool
deriving DecidableEq, Repr

/-- What one frame leaves: the locals, the world, the points at which `sam_compute_masks`
was called in this frame, and the mask overlays drawn. -/
structure FrameResult (W : Type) where
  state : LoopState
  world : W
  computeCalls : List sam_point
  overlays : List Overlay
deriving DecidableEq, Repr

/-- Value of `computeMasks` after `if (segmentOnMove && (x != xLast || y != yLast))`. -/
def triggerFlag (computeMasks : Bool) (s : LoopState) : Bool :=
  if s.segmentOnMove ∧ (s.x ≠ s.xLast ∨ s.y ≠ s.yLast) then true else computeMasks

/-- End of an iteration, after the `if (computeMasks)` block: the two checkboxes take the
user's clicks, then the mask overlays are drawn from `maskTextures`. -/
def finishFrame {W : Type} (inp : FrameInput) (s : LoopState) (w : W)
    (computeCalls : List sam_point) : FrameResult W :=
  let s' := { s with
    segmentOnMove := xor s.segmentOnMove inp.clickSegmentOnMove,
    outputMultipleMasks := xor s.outputMultipleMasks inp.clickOutputMultipleMasks }
  { state := s', world := w, computeCalls := computeCalls,
    overlays := drawOverlays s'.maskTextures s'.outputMultipleMasks }

/-- One iteration of `while (!done)` in `main_loop`. -/
def frame {W : Type} (E : Services W) (window : SDL_Window) (inp : FrameInput)
    (s : LoopState) (w : W) : Option (FrameResult W) :=
  match pollEvents E window inp.events false s w with
  | none => none
  | some (polled, s1, w1) =>
    let computeMasks := triggerFlag polled s1
    let s2 := { s1 with xLast := s1.x, yLast := s1.y }
    if computeMasks then
      match computeMasksStep E s2 w1 with
      | none => none
      | some (s3, w2) => some (finishFrame inp s3 w2 [{ x := s2.x, y := s2.y }])
    else some (finishFrame inp s2 w1 [])

/-- Pointer events: left-button presses and pointer moves. -/
def isPointerEvent (event : SDL_Event) : Bool :=
  match event with
  | .mouseButtonDown button _ _ => button == SDL_BUTTON_LEFT
  | .mouseMotion _ _ => true
  | _ => false

/-- Left-button presses. -/
def isLeftPress (event : SDL_Event) : Bool :=
  match event with
  | .mouseButtonDown button _ _ => button == SDL_BUTTON_LEFT
  | _ => false

/-- Services that work as `E` and also append the arguments of every call of
`sam_compute_masks` to a log kept beside the world. -/
def recording {W : Type} (E : Services W) :
    Services (W × List (sam_image_u8 × sam_point)) where
  SDL_GetWindowDisplayIndex := fun win w => E.SDL_GetWindowDisplayIndex win w.1
  SDL_GetCurrentDisplayMode := fun i w => E.SDL_GetCurrentDisplayMode i w.1
  stbi_load := fun f w => E.stbi_load f w.1
  sam_compute_embd_img := fun img w =>
    ((E.sam_compute_embd_img img w.1).1, ((E.sam_compute_embd_img img w.1).2, w.2))
  sam_compute_masks := fun img pt w =>
    ((E.sam_compute_masks img pt w.1).1,
      ((E.sam_compute_masks img pt w.1).2, w.2 ++ [(img, pt)]))
  createGLTexture := fun img w =>
    ((E.createGLTexture img w.1).1, ((E.createGLTexture img w.1).2, w.2))
  glDeleteTextures := fun ts w => (E.glDeleteTextures ts w.1, w.2)

/-- Pointer position after a batch of events, in the words of the specification: a
left-button press sets `(x, y)` to the event's coordinates (as `float`s), a pointer move sets
it only when hover mode is enabled, nothing else changes it. -/
def trackPos (hover : Bool) (p : ℚ × ℚ) (events : List SDL_Event) : ℚ × ℚ :=
  match events with
  | [] => p
  | .mouseButtonDown button ex ey :: rest =>
    trackPos hover (if button = SDL_BUTTON_LEFT then (fl (ex : ℚ), fl (ey : ℚ)) else p) rest
  | .mouseMotion ex ey :: rest =>
    trackPos hover (if hover then (fl (ex : ℚ), fl (ey : ℚ)) else p) rest
  | _ :: rest => trackPos hover p rest

/-! ## A concrete world for examples -/

/-- Services over a world that is the next free texture name: one display of mode `dm`, a
decoder that yields the 1×1 image `[10, 20, 30]`, an encoder whose result is `encodeOk`, and a
mask computation that returns `masks`. -/
def demoServices (dm : SDL_DisplayMode) (encodeOk : Bool) (masks : List sam_image_u8) :
    Services Nat where
  SDL_GetWindowDisplayIndex := fun _ _ => 0
  SDL_GetCurrentDisplayMode := fun _ _ => some dm
  stbi_load := fun _ _ => some (1, 1, [10, 20, 30])
  sam_compute_embd_img := fun _ w => (encodeOk, w)
  sam_compute_masks := fun _ _ w => (masks, w)
  createGLTexture := fun _ w => (w, w + 1)
  glDeleteTextures := fun _ w => w

/-- A 2×2 RGB image. -/
def img2x2 : sam_image_u8 := { nx := 2, ny := 2, data := [1, 2, 3, 4, 5, 6, 7, 8, 9, 10, 11, 12] }

/-- A black 4000×3000 RGB image. -/
def img4000x3000 : sam_image_u8 :=
  { nx := 4000, ny := 3000, data := List.replicate 36000000 0 }

/-- A black strip of 4343129×1 pixels. -/
def stripImg : sam_image_u8 :=
  { nx := 4343129, ny := 1, data := List.replicate 13029387 0 }

/-- A 1×1 mask. -/
def mask1x1 : sam_image_u8 := { nx := 1, ny := 1, data := [255] }

/-- Locals at the start of a frame in hover mode, pointer at `(0, 0)`. -/
def hoverState : LoopState := { initLoopState img2x2 0 with segmentOnMove := true }

/-- A frame in which the pointer moves to `(10, 10)` and no checkbox is clicked. -/
def moveInput : FrameInput :=
  { events := [.mouseMotion 10 10], clickSegmentOnMove := false,
    clickOutputMultipleMasks := false }

/-- What the frame `moveInput` leaves from `hoverState` in the world `1` when the mask
computation returns one 1×1 mask. -/
def movedResult : FrameResult Nat :=
  { state := { img := img2x2, tex := 0, done := false, x := 10, y := 10, xLast := 10,
               yLast := 10, masks := [mask1x1], maskTextures := [1], segmentOnMove := true,
               outputMultipleMasks := false },
    world := 2, computeCalls := [{ x := 10, y := 10 }],
    overlays := [{ tex := 1, r := 0, g := 0, b := 255, a := 128 }] }

/-- A frame with a left click at `(5, 7)` followed by a pointer move to `(1, 2)`. -/
def clickInput : FrameInput :=
  { events := [.mouseButtonDown SDL_BUTTON_LEFT 5 7, .mouseMotion 1 2],
    clickSegmentOnMove := false, clickOutputMultipleMasks := false }

/-! ## Proof-side definitions -/

/-- Source byte that `downscale_img` stores at flat output index `k` (row length `nw`). -/
def destVal (img : sam_image_u8) (scale : ℚ) (nw k : Nat) : Option UInt8 :=
  (srcCoord ((k / 3 % nw : Nat) : Int) scale).bind fun src_x =>
  (srcCoord ((k / 3 / nw : Nat) : Int) scale).bind fun src_y =>
  readAt img.data ((src_y * img.nx + src_x) * 3 + ((k % 3 : Nat) : Int))

/-- Loop invariant of `downscale_img`: the output buffer has `N` bytes and its first `cnt`
bytes already hold their final value. -/
def Filled (img : sam_image_u8) (scale : ℚ) (nw N cnt : Nat) (d : List UInt8) : Prop :=
  d.length = N ∧ ∀ k, k < cnt → d[k]? = destVal img scale nw k

/-! ## Properties of the binary32 rounding -/

theorem pow2_eq_zpow (e : Int) : pow2 e = (2 : ℚ) ^ e := by
  unfold pow2
  split_ifs with h
  · obtain ⟨n, rfl⟩ := Int.eq_ofNat_of_zero_le h
    simp
  · have hneg : 0 ≤ -e := by omega
    obtain ⟨n, hn⟩ := Int.eq_ofNat_of_zero_le hneg
    have he : e = -(n : Int) := by omega
    subst he
    simp

theorem pow2_pos (e : Int) : 0 < pow2 e := by
  rw [pow2_eq_zpow]; positivity

theorem pow2_add (a b : Int) : pow2 (a + b) = pow2 a * pow2 b := by
  simp only [pow2_eq_zpow]
  exact zpow_add₀ (by norm_num) a b

theorem pow2_le_pow2 {a b : Int} (h : a ≤ b) : pow2 a ≤ pow2 b := by
  simp only [pow2_eq_zpow]
  exact zpow_le_zpow_right₀ (by norm_num) h

theorem pow2_lt_pow2_iff {a b : Int} : pow2 a < pow2 b ↔ a < b := by
  simp only [pow2_eq_zpow]
  exact zpow_lt_zpow_iff_right₀ (by norm_num)

theorem pow2_natCast (n : Nat) : pow2 (n : Int) = ((2 ^ n : Nat) : ℚ) := by
  simp [pow2]

theorem ilog2_spec (fuel n : Nat) (hf : n ≤ fuel) (hn : 1 ≤ n) :
    2 ^ ilog2 fuel n ≤ n ∧ n < 2 ^ (ilog2 fuel n + 1) := by
  induction fuel generalizing n with
  | zero => omega
  | succ f ih =>
    unfold ilog2
    split_ifs with h2
    · constructor <;> simp <;> omega
    · have hhalf : n / 2 ≤ f := by omega
      have hpos : 1 ≤ n / 2 := by omega
      obtain ⟨h1, h3⟩ := ih (n / 2) hhalf hpos
      constructor
      · rw [pow_succ]; omega
      · rw [pow_succ]; omega

theorem binade_spec (q : ℚ) (hq : q ≠ 0) :
    pow2 (binade q) ≤ |q| ∧ |q| < pow2 (binade q + 1) := by
  have hnum : q.num ≠ 0 := Rat.num_ne_zero.mpr hq
  have hn1 : 1 ≤ q.num.natAbs := Nat.one_le_iff_ne_zero.mpr (Int.natAbs_ne_zero.mpr hnum)
  have hd1 : 1 ≤ q.den := q.den_pos
  obtain ⟨ha1, ha2⟩ := ilog2_spec q.num.natAbs q.num.natAbs (le_refl _) hn1
  obtain ⟨hb1, hb2⟩ := ilog2_spec q.den q.den (le_refl _) hd1
  have habs : |q| = (q.num.natAbs : ℚ) / (q.den : ℚ) := by
    conv_lhs => rw [← Rat.num_div_den q]
    rw [abs_div, Nat.abs_cast, Nat.cast_natAbs, Int.cast_abs]
  have hdq : (0 : ℚ) < (q.den : ℚ) := by exact_mod_cast q.den_pos
  set a := ilog2 q.num.natAbs q.num.natAbs with ha
  set b := ilog2 q.den q.den with hb
  have ha1q : ((2 : ℚ) ^ a) ≤ (q.num.natAbs : ℚ) := by exact_mod_cast ha1
  have ha2q : (q.num.natAbs : ℚ) < (2 : ℚ) ^ (a + 1) := by exact_mod_cast ha2
  have hb1q : ((2 : ℚ) ^ b) ≤ (q.den : ℚ) := by exact_mod_cast hb1
  have hb2q : (q.den : ℚ) < (2 : ℚ) ^ (b + 1) := by exact_mod_cast hb2
  have hlow : pow2 ((a : Int) - (b : Int) - 1) < |q| := by
    rw [habs, lt_div_iff₀ hdq, pow2_eq_zpow]
    have : (2 : ℚ) ^ ((a : Int) - (b : Int) - 1) * (2 : ℚ) ^ (b + 1) = (2 : ℚ) ^ a := by
      rw [← zpow_natCast, ← zpow_natCast, ← zpow_add₀ (by norm_num)]
      congr 1; push_cast; ring
    calc (2 : ℚ) ^ ((a : Int) - (b : Int) - 1) * (q.den : ℚ)
        < (2 : ℚ) ^ ((a : Int) - (b : Int) - 1) * (2 : ℚ) ^ (b + 1) :=
          mul_lt_mul_of_pos_left hb2q (by positivity)
      _ = (2 : ℚ) ^ a := this
      _ ≤ _ := ha1q
  have hhigh : |q| < pow2 ((a : Int) - (b : Int) + 1) := by
    rw [habs, div_lt_iff₀ hdq, pow2_eq_zpow]
    have : (2 : ℚ) ^ ((a : Int) - (b : Int) + 1) * (2 : ℚ) ^ b = (2 : ℚ) ^ (a + 1) := by
      rw [← zpow_natCast, ← zpow_natCast, ← zpow_add₀ (by norm_num)]
      congr 1; push_cast; ring
    calc (q.num.natAbs : ℚ) < (2 : ℚ) ^ (a + 1) := ha2q
      _ = (2 : ℚ) ^ ((a : Int) - (b : Int) + 1) * (2 : ℚ) ^ b := this.symm
      _ ≤ (2 : ℚ) ^ ((a : Int) - (b : Int) + 1) * (q.den : ℚ) :=
          mul_le_mul_of_nonneg_left hb1q (by positivity)
  unfold binade
  simp only [← ha, ← hb]
  split_ifs with hc
  · exact ⟨hc, hhigh⟩
  · refine ⟨hlow.le, ?_⟩
    have : (a : Int) - (b : Int) - 1 + 1 = (a : Int) - (b : Int) := by ring
    rw [this]
    exact lt_of_not_le hc

theorem binade_unique {q : ℚ} {e : Int} (h1 : pow2 e ≤ |q|) (h2 : |q| < pow2 (e + 1)) :
    binade q = e := by
  have hq : q ≠ 0 := by
    intro h0
    rw [h0, abs_zero] at h1
    exact absurd (pow2_pos e) (not_lt.mpr h1)
  obtain ⟨b1, b2⟩ := binade_spec q hq
  have hA : binade q < e + 1 := pow2_lt_pow2_iff.mp (lt_of_le_of_lt b1 h2)
  have hB : e < binade q + 1 := pow2_lt_pow2_iff.mp (lt_of_le_of_lt h1 b2)
  omega

theorem binade_mono {a b : ℚ} (ha : 0 < a) (hab : a ≤ b) : binade a ≤ binade b := by
  obtain ⟨a1, _⟩ := binade_spec a ha.ne.symm
  obtain ⟨_, b2⟩ := binade_spec b (lt_of_lt_of_le ha hab).ne.symm
  rw [abs_of_pos ha] at a1
  rw [abs_of_pos (lt_of_lt_of_le ha hab)] at b2
  have : binade a < binade b + 1 := pow2_lt_pow2_iff.mp (lt_of_le_of_lt (a1.trans hab) b2)
  omega

theorem roundEven_cases (r : ℚ) :
    (roundEven r = ⌊r⌋ ∧ r - ⌊r⌋ ≤ 1 / 2 ∧ (r - ⌊r⌋ = 1 / 2 → ⌊r⌋ % 2 = 0)) ∨
    (roundEven r = ⌊r⌋ + 1 ∧ 1 / 2 ≤ r - ⌊r⌋ ∧ (r - ⌊r⌋ = 1 / 2 → ⌊r⌋ % 2 ≠ 0)) := by
  unfold roundEven
  simp only
  split_ifs with h1 h2 h3
  · left; exact ⟨rfl, h1.le, fun h => absurd h (ne_of_lt h1)⟩
  · right; exact ⟨rfl, h2.le, fun h => absurd h.symm (ne_of_lt h2)⟩
  · left; exact ⟨rfl, not_lt.mp h2, fun _ => h3⟩
  · right; exact ⟨rfl, not_lt.mp h1, fun _ => h3⟩

theorem roundEven_sub_le (r : ℚ) : (roundEven r : ℚ) - r ≤ 1 / 2 := by
  have hf := Int.floor_le r
  have hc := Int.lt_floor_add_one r
  rcases roundEven_cases r with ⟨h, h1, _⟩ | ⟨h, h1, _⟩
  · rw [h]; linarith
  · rw [h]; push_cast; linarith

theorem sub_roundEven_le (r : ℚ) : r - (roundEven r : ℚ) ≤ 1 / 2 := by
  have hf := Int.floor_le r
  have hc := Int.lt_floor_add_one r
  rcases roundEven_cases r with ⟨h, h1, _⟩ | ⟨h, h1, _⟩
  · rw [h]; linarith
  · rw [h]; push_cast; linarith

theorem roundEven_intCast (n : Int) : roundEven (n : ℚ) = n := by
  rcases roundEven_cases (n : ℚ) with ⟨h, _, _⟩ | ⟨_, h1, _⟩
  · rw [h, Int.floor_intCast]
  · rw [Int.floor_intCast] at h1
    norm_num at h1

theorem roundEven_mono {r s : ℚ} (h : r ≤ s) : roundEven r ≤ roundEven s := by
  have hfl : ⌊r⌋ ≤ ⌊s⌋ := Int.floor_mono h
  rcases roundEven_cases r with ⟨hr, hr1, hr2⟩ | ⟨hr, hr1, hr2⟩ <;>
    rcases roundEven_cases s with ⟨hs, hs1, hs2⟩ | ⟨hs, hs1, hs2⟩
  · rw [hr, hs]; exact hfl
  · rw [hr, hs]; omega
  · rw [hr, hs]
    by_contra hlt
    have heq : ⌊r⌋ = ⌊s⌋ := by omega
    rw [heq] at hr1 hr2
    have hrs : r - (⌊s⌋ : ℚ) ≤ s - (⌊s⌋ : ℚ) := by linarith
    have e1 : s - (⌊s⌋ : ℚ) = 1 / 2 := le_antisymm hs1 (hr1.trans hrs)
    have e2 : r - (⌊s⌋ : ℚ) = 1 / 2 := le_antisymm (hrs.trans hs1) hr1
    exact hr2 e2 (hs2 e1)
  · rw [hr, hs]; omega

theorem roundEven_nonneg {r : ℚ} (h : 0 ≤ r) : 0 ≤ roundEven r := by
  have := roundEven_mono h
  rw [show ((0 : ℚ) = ((0 : Int) : ℚ)) by simp, roundEven_intCast] at this
  exact this

theorem fl_zero : fl 0 = 0 := by simp [fl]

theorem fl_def {q : ℚ} (hq : q ≠ 0) :
    fl q = (roundEven (q / pow2 (ulpExp q)) : ℚ) * pow2 (ulpExp q) := by
  simp [fl, hq]

theorem fl_nonneg {q : ℚ} (h : 0 ≤ q) : 0 ≤ fl q := by
  rcases eq_or_lt_of_le h with h0 | hpos
  · rw [← h0, fl_zero]
  · rw [fl_def hpos.ne.symm]
    have h1 : (0 : ℚ) ≤ q / pow2 (ulpExp q) := div_nonneg h (pow2_pos _).le
    have h2 : (0 : ℚ) ≤ (roundEven (q / pow2 (ulpExp q)) : ℚ) := by
      exact_mod_cast roundEven_nonneg h1
    exact mul_nonneg h2 (pow2_pos _).le

/-- Representable numbers are fixed: `m * 2^k` with `m < 2^24` and `k ≥ -149`. -/
theorem fl_exact (m : Nat) (k : Int) (hm : m < 2 ^ 24) (hk : -149 ≤ k) :
    fl ((m : ℚ) * pow2 k) = (m : ℚ) * pow2 k := by
  rcases Nat.eq_zero_or_pos m with h0 | hpos
  · subst h0; simp [fl_zero]
  have hq : (0 : ℚ) < (m : ℚ) * pow2 k :=
    mul_pos (by exact_mod_cast hpos) (pow2_pos k)
  obtain ⟨b1, _⟩ := binade_spec _ hq.ne.symm
  rw [abs_of_pos hq] at b1
  have hlt : (m : ℚ) * pow2 k < pow2 (24 + k) := by
    rw [pow2_add]
    have : (m : ℚ) < pow2 24 := by
      rw [show (24 : Int) = ((24 : Nat) : Int) by rfl, pow2_natCast]
      exact_mod_cast hm
    exact mul_lt_mul_of_pos_right this (pow2_pos k)
  have hb : binade ((m : ℚ) * pow2 k) < 24 + k := pow2_lt_pow2_iff.mp (lt_of_le_of_lt b1 hlt)
  have hu : ulpExp ((m : ℚ) * pow2 k) ≤ k := by
    unfold ulpExp
    exact max_le (by omega) hk
  obtain ⟨t, ht⟩ := Int.eq_ofNat_of_zero_le (sub_nonneg.mpr hu)
  have hk2 : k = (t : Int) + ulpExp ((m : ℚ) * pow2 k) := by omega
  rw [fl_def hq.ne.symm]
  have hdiv : (m : ℚ) * pow2 k / pow2 (ulpExp ((m : ℚ) * pow2 k))
      = (((m * 2 ^ t : Nat) : Int) : ℚ) := by
    rw [div_eq_iff (pow2_pos _).ne.symm]
    conv_lhs => rw [hk2, pow2_add, pow2_natCast]
    push_cast
    ring
  rw [hdiv, roundEven_intCast]
  conv_rhs => rw [hk2, pow2_add, pow2_natCast]
  push_cast
  ring

theorem fl_mono {a b : ℚ} (ha : 0 ≤ a) (hab : a ≤ b) : fl a ≤ fl b := by
  rcases eq_or_lt_of_le ha with h0 | hpos
  · rw [← h0, fl_zero]; exact fl_nonneg (ha.trans hab)
  have hbpos : 0 < b := lt_of_lt_of_le hpos hab
  have hbin := binade_mono hpos hab
  rw [fl_def hpos.ne.symm, fl_def hbpos.ne.symm]
  have hu : ulpExp a ≤ ulpExp b := by
    unfold ulpExp; exact max_le_max (by omega) (le_refl _)
  rcases eq_or_lt_of_le hu with heq | hlt
  · rw [heq]
    have : roundEven (a / pow2 (ulpExp b)) ≤ roundEven (b / pow2 (ulpExp b)) :=
      roundEven_mono (div_le_div_of_nonneg_right hab (pow2_pos _).le)
    exact mul_le_mul_of_nonneg_right (by exact_mod_cast this) (pow2_pos _).le
  · -- different grids: the power of two `2^(binade b)` lies between the two results
    have hkb : ulpExp b = binade b - 23 := by
      unfold ulpExp at hlt ⊢
      have h149 : (-149 : Int) ≤ max (binade a - 23) (-149) := le_max_right _ _
      have : (-149 : Int) < max (binade b - 23) (-149) := lt_of_le_of_lt h149 hlt
      exact max_eq_left (by
        by_contra hc
        rw [max_eq_right (by omega)] at this
        exact absurd this (lt_irrefl _))
    have hka : binade a - 23 ≤ ulpExp a := le_max_left _ _
    have hgap : binade a + 1 ≤ binade b := by omega
    obtain ⟨_, a2⟩ := binade_spec a hpos.ne.symm
    obtain ⟨b1, _⟩ := binade_spec b hbpos.ne.symm
    rw [abs_of_pos hpos] at a2
    rw [abs_of_pos hbpos] at b1
    -- upper bound for `fl a`
    obtain ⟨t, ht⟩ := Int.eq_ofNat_of_zero_le (by omega : 0 ≤ binade b - ulpExp a)
    have hP : pow2 (binade b) = (((2 ^ t : Nat) : Int) : ℚ) * pow2 (ulpExp a) := by
      have : binade b = (t : Int) + ulpExp a := by omega
      conv_lhs => rw [this, pow2_add, pow2_natCast]
      push_cast; ring
    have hale : a ≤ pow2 (binade b) := (a2.trans_le (pow2_le_pow2 hgap)).le
    have h1 : roundEven (a / pow2 (ulpExp a)) ≤ ((2 ^ t : Nat) : Int) := by
      have : a / pow2 (ulpExp a) ≤ (((2 ^ t : Nat) : Int) : ℚ) := by
        rw [div_le_iff₀ (pow2_pos _), ← hP]; exact hale
      have := roundEven_mono this
      rwa [roundEven_intCast] at this
    have hA : (roundEven (a / pow2 (ulpExp a)) : ℚ) * pow2 (ulpExp a) ≤ pow2 (binade b) := by
      rw [hP]
      exact mul_le_mul_of_nonneg_right (by exact_mod_cast h1) (pow2_pos _).le
    -- lower bound for `fl b`
    have hQ : pow2 (binade b) = (((2 ^ 23 : Nat) : Int) : ℚ) * pow2 (ulpExp b) := by
      have : binade b = ((23 : Nat) : Int) + ulpExp b := by omega
      conv_lhs => rw [this, pow2_add, pow2_natCast]
      push_cast; ring
    have h2 : ((2 ^ 23 : Nat) : Int) ≤ roundEven (b / pow2 (ulpExp b)) := by
      have : (((2 ^ 23 : Nat) : Int) : ℚ) ≤ b / pow2 (ulpExp b) := by
        rw [le_div_iff₀ (pow2_pos _), ← hQ]; exact b1
      have := roundEven_mono this
      rwa [roundEven_intCast] at this
    have hB : pow2 (binade b) ≤ (roundEven (b / pow2 (ulpExp b)) : ℚ) * pow2 (ulpExp b) := by
      rw [hQ]
      exact mul_le_mul_of_nonneg_right (by exact_mod_cast h2) (pow2_pos _).le
    exact hA.trans hB

/-- Error of the rounding in the normal range: at most `q / 2^24`. -/
theorem fl_error {q : ℚ} (hq : pow2 (-126) ≤ q) : |fl q - q| ≤ q / 2 ^ 24 := by
  have hpos : 0 < q := lt_of_lt_of_le (pow2_pos _) hq
  obtain ⟨b1, b2⟩ := binade_spec q hpos.ne.symm
  rw [abs_of_pos hpos] at b1 b2
  have hb : -126 ≤ binade q := by
    have : pow2 (-126) < pow2 (binade q + 1) := lt_of_le_of_lt hq b2
    have := pow2_lt_pow2_iff.mp this
    omega
  have hu : ulpExp q = binade q - 23 := by
    unfold ulpExp; exact max_eq_left (by omega)
  rw [fl_def hpos.ne.symm]
  set u := pow2 (ulpExp q) with hudef
  have hupos : 0 < u := pow2_pos _
  have hr1 := roundEven_sub_le (q / u)
  have hr2 := sub_roundEven_le (q / u)
  have hqu : q / u * u = q := div_mul_cancel₀ q hupos.ne.symm
  have hule : u ≤ q / 2 ^ 23 := by
    rw [le_div_iff₀ (by positivity)]
    have : u * 2 ^ 23 = pow2 (binade q) := by
      have h23 : ((2 : ℚ) ^ 23) = pow2 ((23 : Nat) : Int) := by
        rw [pow2_natCast]; norm_num
      rw [hudef, hu, h23, ← pow2_add]
      congr 1; push_cast; ring
    rw [this]; exact b1
  have e1 : (roundEven (q / u) : ℚ) * u - q = ((roundEven (q / u) : ℚ) - q / u) * u := by
    rw [sub_mul, hqu]
  rw [e1, abs_le]
  have hhalf : (1 / 2 : ℚ) * u ≤ q / 2 ^ 24 := by
    have : q / 2 ^ 24 = (1 / 2 : ℚ) * (q / 2 ^ 23) := by ring
    rw [this]
    exact mul_le_mul_of_nonneg_left hule (by norm_num)
  constructor
  · have : -(1 / 2 : ℚ) * u ≤ ((roundEven (q / u) : ℚ) - q / u) * u :=
      mul_le_mul_of_nonneg_right (by linarith) hupos.le
    linarith
  · have : ((roundEven (q / u) : ℚ) - q / u) * u ≤ (1 / 2 : ℚ) * u :=
      mul_le_mul_of_nonneg_right hr1 hupos.le
    linarith

theorem fl_exact_div (m k : Nat) (hm : m < 2 ^ 24) (hk : k ≤ 149) :
    fl ((m : ℚ) / 2 ^ k) = (m : ℚ) / 2 ^ k := by
  have h : (m : ℚ) / 2 ^ k = (m : ℚ) * pow2 (-(k : Int)) := by
    rw [pow2_eq_zpow, zpow_neg, zpow_natCast, div_eq_mul_inv]
  rw [h]
  exact fl_exact m _ hm (by omega)

theorem fl_natCast (m : Nat) (hm : m < 2 ^ 24) : fl (m : ℚ) = (m : ℚ) := by
  have := fl_exact_div m 0 hm (by omega)
  simpa using this

theorem fl_intCast {n : Int} (h0 : 0 ≤ n) (hn : n < 2 ^ 24) : fl (n : ℚ) = (n : ℚ) := by
  obtain ⟨m, rfl⟩ := Int.eq_ofNat_of_zero_le h0
  have hm : m < 2 ^ 24 := by exact_mod_cast hn
  exact_mod_cast fl_natCast m hm

/-- Numbers `n + j/8` with `0 ≤ n ≤ 2^20` and `0 ≤ j < 8` are representable. -/
theorem fl_eighths {n : Int} (h0 : 0 ≤ n) (hn : n ≤ 2 ^ 20) (j : Nat) (hj : j < 8) :
    fl ((n : ℚ) + (j : ℚ) / 8) = (n : ℚ) + (j : ℚ) / 8 := by
  obtain ⟨m, rfl⟩ := Int.eq_ofNat_of_zero_le h0
  have hm : m ≤ 2 ^ 20 := by exact_mod_cast hn
  have h : ((m : Int) : ℚ) + (j : ℚ) / 8 = ((8 * m + j : Nat) : ℚ) / 2 ^ 3 := by
    push_cast; ring
  rw [h]
  exact fl_exact_div _ 3 (by omega) (by omega)

theorem toF32_of_le {q : ℚ} (h0 : 0 ≤ q) (h : q ≤ 2 ^ 64) : toF32 q = some (fl q) := by
  have hfl : fl ((2 : ℚ) ^ 64) = (2 : ℚ) ^ 64 := by
    have := fl_exact 1 64 (by norm_num) (by norm_num)
    rw [show (64 : Int) = ((64 : Nat) : Int) by rfl, pow2_natCast] at this
    simpa using this
  have h1 : fl q ≤ (2 : ℚ) ^ 64 := (fl_mono h0 h).trans_eq hfl
  have h2 : 0 ≤ fl q := fl_nonneg h0
  have h3 : |fl q| ≤ maxFinite := by
    rw [abs_of_nonneg h2]
    refine h1.trans ?_
    norm_num [maxFinite]
  simp [toF32, h3]

/-- The `float` value whose truncation is `newSide side scale`. -/
theorem newSide_eq {side : Int} {s : ℚ} (h0 : 0 ≤ side) (hB : side ≤ 2 ^ 20) (hs : 1 ≤ s) :
    newSide side s = some (roundedSide side s) ∧
      0 ≤ fl ((side : ℚ) / s) ∧ fl ((side : ℚ) / s) ≤ (side : ℚ) ∧
      fl (fl ((side : ℚ) / s) + 1 / 2) ≤ (side : ℚ) + 1 / 2 ∧
      0 ≤ roundedSide side s ∧ roundedSide side s ≤ side := by
  have hflN0 : fl (side : ℚ) = (side : ℚ) := fl_intCast h0 (by omega)
  unfold roundedSide
  rw [hflN0]
  have hs0 : (0 : ℚ) < s := by linarith
  have hN0 : (0 : ℚ) ≤ (side : ℚ) := by exact_mod_cast h0
  have hNB : (side : ℚ) ≤ 2 ^ 20 := by exact_mod_cast hB
  have hflN : fl (side : ℚ) = (side : ℚ) := fl_intCast h0 (by omega)
  have hdiv0 : (0 : ℚ) ≤ (side : ℚ) / s := div_nonneg hN0 hs0.le
  have hdivle : (side : ℚ) / s ≤ (side : ℚ) := div_le_self hN0 hs
  have ha0 : 0 ≤ fl ((side : ℚ) / s) := fl_nonneg hdiv0
  have haN : fl ((side : ℚ) / s) ≤ (side : ℚ) := (fl_mono hdiv0 hdivle).trans_eq hflN
  have hhalf : fl ((side : ℚ) + 1 / 2) = (side : ℚ) + 1 / 2 := by
    have := fl_eighths h0 hB 4 (by norm_num)
    norm_num at this
    exact this
  have ht0 : 0 ≤ fl (fl ((side : ℚ) / s) + 1 / 2) := fl_nonneg (by linarith)
  have htN : fl (fl ((side : ℚ) / s) + 1 / 2) ≤ (side : ℚ) + 1 / 2 :=
    (fl_mono (by linarith) (by linarith)).trans_eq hhalf
  have e1 : ofInt side = some (side : ℚ) := by
    unfold ofInt
    rw [toF32_of_le hN0 (hNB.trans (by norm_num)), hflN]
  have e2 : fdiv (side : ℚ) s = some (fl ((side : ℚ) / s)) := by
    unfold fdiv
    rw [if_neg hs0.ne.symm]
    exact toF32_of_le hdiv0 (hdivle.trans (hNB.trans (by norm_num)))
  have e3 : fadd (fl ((side : ℚ) / s)) (1 / 2) = some (fl (fl ((side : ℚ) / s) + 1 / 2)) := by
    unfold fadd
    exact toF32_of_le (by linarith) (by linarith [hNB.trans (by norm_num : (2 : ℚ) ^ 20 ≤ 2 ^ 63)])
  have hfloor0 : 0 ≤ ⌊fl (fl ((side : ℚ) / s) + 1 / 2)⌋ := Int.floor_nonneg.mpr ht0
  have hfloorN : ⌊fl (fl ((side : ℚ) / s) + 1 / 2)⌋ ≤ side := by
    rw [← Int.lt_add_one_iff, Int.floor_lt]
    push_cast
    linarith
  refine ⟨?_, ha0, haN, htN, hfloor0, hfloorN⟩
  simp only [newSide, e1, e2, e3, Option.some_bind, Option.map_some', truncToInt, ht0, if_true]

/-- In-range source coordinates: for a side of at most `2^20` and a scale of at least 1, every
output index below the new side reads inside the source. -/
theorem srcCoord_in_range {side nw x : Int} {s : ℚ} (h0 : 0 ≤ side) (hB : side ≤ 2 ^ 20)
    (hs : 1 ≤ s) (hnw : newSide side s = some nw) (hx0 : 0 ≤ x) (hx : x < nw) :
    srcCoord x s = some (roundedSrc x s) ∧ 0 ≤ roundedSrc x s ∧ roundedSrc x s < side := by
  obtain ⟨hns, ha0, haN, htN, _, hnwN⟩ := newSide_eq h0 hB hs
  have hflN0 : fl (side : ℚ) = (side : ℚ) := fl_intCast h0 (by omega)
  unfold roundedSide at hns hnwN
  rw [hflN0] at hns hnwN
  rw [hns] at hnw
  have hnw' := Option.some.inj hnw
  set a := fl ((side : ℚ) / s) with hadef
  set t := fl (a + 1 / 2) with htdef
  have hs0 : (0 : ℚ) < s := by linarith
  have hN0 : (0 : ℚ) ≤ (side : ℚ) := by exact_mod_cast h0
  have hNB : (side : ℚ) ≤ 2 ^ 20 := by exact_mod_cast hB
  have hX0 : (0 : ℚ) ≤ (x : ℚ) := by exact_mod_cast hx0
  -- `x + 1 ≤ t`
  have hxt : (x : ℚ) + 1 ≤ t := by
    have h1 : x + 1 ≤ ⌊t⌋ := by omega
    have h2 : ((x + 1 : Int) : ℚ) ≤ t := Int.le_floor.mp h1
    push_cast at h2
    exact h2
  have hxN : x < side := by
    have : (x : ℚ) + 1 ≤ (side : ℚ) + 1 / 2 := hxt.trans htN
    have : (x : ℚ) < (side : ℚ) := by linarith
    exact_mod_cast this
  -- `a > 1/4`, hence `side / s > 1/4`
  have ha4 : (1 / 4 : ℚ) < a := by
    by_contra hc
    have hle : a + 1 / 2 ≤ 3 / 4 := by linarith [not_lt.mp hc]
    have h34 : fl (3 / 4 : ℚ) = 3 / 4 := by
      have := fl_exact_div 3 2 (by norm_num) (by norm_num)
      norm_num at this
      exact this
    have : t ≤ 3 / 4 := (fl_mono (by linarith) hle).trans_eq h34
    linarith
  have hq4 : (1 / 4 : ℚ) < (side : ℚ) / s := by
    by_contra hc
    have h14 : fl (1 / 4 : ℚ) = 1 / 4 := by
      have := fl_exact_div 1 2 (by norm_num) (by norm_num)
      norm_num at this
      exact this
    have : a ≤ 1 / 4 := (fl_mono (div_nonneg hN0 hs0.le) (not_lt.mp hc)).trans_eq h14
    linarith
  have hs4 : s < 4 * (side : ℚ) := by
    rw [lt_div_iff₀ hs0] at hq4
    linarith
  -- error bounds
  have hp126 : pow2 (-126) ≤ 1 / 4 := by
    rw [show (1 / 4 : ℚ) = pow2 (-2) by rw [pow2_eq_zpow]; norm_num]
    exact pow2_le_pow2 (by norm_num)
  have hea := fl_error (hp126.trans hq4.le)
  have het := fl_error (q := a + 1 / 2) (hp126.trans (by linarith))
  rw [abs_le] at hea het
  -- `a * s ≤ side * (1 + 2^-24)`
  have has : a * s ≤ (side : ℚ) * (1 + 1 / 2 ^ 24) := by
    have h1 : a ≤ (side : ℚ) / s * (1 + 1 / 2 ^ 24) := by
      have := hea.2
      have e : (side : ℚ) / s * (1 + 1 / 2 ^ 24) = (side : ℚ) / s + (side : ℚ) / s / 2 ^ 24 := by
        ring
      rw [e]; linarith
    have h2 : a * s ≤ (side : ℚ) / s * (1 + 1 / 2 ^ 24) * s :=
      mul_le_mul_of_nonneg_right h1 hs0.le
    have e2 : (side : ℚ) / s * (1 + 1 / 2 ^ 24) * s = (side : ℚ) * (1 + 1 / 2 ^ 24) := by
      field_simp
      ring
    rw [e2] at h2
    exact h2
  -- `(x + 1/2) * s ≤ side + 3/8`
  have hprod : ((x : ℚ) + 1 / 2) * s ≤ (side : ℚ) + 3 / 8 := by
    have h1 : (x : ℚ) + 1 / 2 ≤ a * (1 + 1 / 2 ^ 24) + 1 / 2 ^ 25 := by
      have := het.2
      have e : a * (1 + 1 / 2 ^ 24) + 1 / 2 ^ 25 = a + 1 / 2 + (a + 1 / 2) / 2 ^ 24 - 1 / 2 := by
        ring
      rw [e]; linarith
    have h2 : ((x : ℚ) + 1 / 2) * s ≤ (a * (1 + 1 / 2 ^ 24) + 1 / 2 ^ 25) * s :=
      mul_le_mul_of_nonneg_right h1 hs0.le
    have e3 : (a * (1 + 1 / 2 ^ 24) + 1 / 2 ^ 25) * s
        = a * s * (1 + 1 / 2 ^ 24) + s / 2 ^ 25 := by ring
    have h3 : a * s * (1 + 1 / 2 ^ 24)
        ≤ (side : ℚ) * (1 + 1 / 2 ^ 24) * (1 + 1 / 2 ^ 24) :=
      mul_le_mul_of_nonneg_right has (by norm_num)
    have h4 : s / 2 ^ 25 ≤ 4 * (side : ℚ) / 2 ^ 25 :=
      div_le_div_of_nonneg_right hs4.le (by norm_num)
    have h5 : (side : ℚ) * (1 + 1 / 2 ^ 24) * (1 + 1 / 2 ^ 24) + 4 * (side : ℚ) / 2 ^ 25
        ≤ (side : ℚ) + 3 / 8 := by
      have e5 : (side : ℚ) * (1 + 1 / 2 ^ 24) * (1 + 1 / 2 ^ 24) + 4 * (side : ℚ) / 2 ^ 25
          = (side : ℚ) + (side : ℚ) * (1 / 2 ^ 22 + 1 / 2 ^ 48) := by ring
      rw [e5]
      have : (side : ℚ) * (1 / 2 ^ 22 + 1 / 2 ^ 48) ≤ 2 ^ 20 * (1 / 2 ^ 22 + 1 / 2 ^ 48) :=
        mul_le_mul_of_nonneg_right hNB (by norm_num)
      have e6 : (2 : ℚ) ^ 20 * (1 / 2 ^ 22 + 1 / 2 ^ 48) ≤ 3 / 8 := by norm_num
      linarith
    rw [e3] at h2
    linarith
  have hprod0 : (1 / 2 : ℚ) ≤ ((x : ℚ) + 1 / 2) * s := by
    have : ((x : ℚ) + 1 / 2) * 1 ≤ ((x : ℚ) + 1 / 2) * s :=
      mul_le_mul_of_nonneg_left hs (by linarith)
    linarith
  -- the four operations
  have hflx : fl (x : ℚ) = (x : ℚ) := fl_intCast hx0 (by omega)
  have hflxh : fl ((x : ℚ) + 1 / 2) = (x : ℚ) + 1 / 2 := by
    have := fl_eighths hx0 (by omega) 4 (by norm_num)
    norm_num at this
    exact this
  have h12 : fl (1 / 2 : ℚ) = 1 / 2 := by
    have := fl_exact_div 1 1 (by norm_num) (by norm_num)
    norm_num at this
    exact this
  have hN38 : fl ((side : ℚ) + 3 / 8) = (side : ℚ) + 3 / 8 := by
    have := fl_eighths h0 hB 3 (by norm_num)
    norm_num at this
    exact this
  have hside1 : 1 ≤ side := by omega
  have hN18 : fl ((side : ℚ) - 1 / 8) = (side : ℚ) - 1 / 8 := by
    have := fl_eighths (n := side - 1) (by omega) (by omega) 7 (by norm_num)
    push_cast at this
    have e : (side : ℚ) - 1 + 7 / 8 = (side : ℚ) - 1 / 8 := by ring
    norm_num at this
    rw [e] at this
    exact this
  set v := fl (((x : ℚ) + 1 / 2) * s) with hvdef
  have hv0 : 1 / 2 ≤ v := h12.symm.trans_le (fl_mono (by norm_num) hprod0)
  have hvN : v ≤ (side : ℚ) + 3 / 8 := (fl_mono (by linarith) hprod).trans_eq hN38
  set w := fl (v - 1 / 2) with hwdef
  have hw0 : 0 ≤ w := fl_nonneg (by linarith)
  have hwN : w ≤ (side : ℚ) - 1 / 8 := (fl_mono (by linarith) (by linarith)).trans_eq hN18
  have big : (2 : ℚ) ^ 20 + 1 ≤ 2 ^ 64 := by norm_num
  have e1 : ofInt x = some (x : ℚ) := by
    unfold ofInt
    have hxB : (x : ℚ) ≤ 2 ^ 64 := by
      have : (x : ℚ) ≤ (side : ℚ) := by exact_mod_cast hxN.le
      linarith
    rw [toF32_of_le hX0 hxB, hflx]
  have e2 : fadd (x : ℚ) (1 / 2) = some ((x : ℚ) + 1 / 2) := by
    unfold fadd
    have hxB : (x : ℚ) + 1 / 2 ≤ 2 ^ 64 := by
      have : (x : ℚ) ≤ (side : ℚ) := by exact_mod_cast hxN.le
      linarith
    rw [toF32_of_le (by linarith) hxB, hflxh]
  have e3 : fmul ((x : ℚ) + 1 / 2) s = some v := by
    unfold fmul
    exact toF32_of_le (by linarith) (by linarith)
  have e4 : fsub v (1 / 2) = some w := by
    unfold fsub
    exact toF32_of_le (by linarith) (by linarith)
  unfold roundedSrc
  rw [hflx, hflxh]
  refine ⟨?_, Int.floor_nonneg.mpr hw0, ?_⟩
  · simp only [srcCoord, e1, e2, e3, e4, Option.some_bind, Option.map_some', truncToInt, hw0,
      if_true]
  · rw [Int.floor_lt]
    linarith

theorem srcIndex_bounds {w h sx sy c : Int} (hsx : 0 ≤ sx) (hsxw : sx < w) (hsy : 0 ≤ sy)
    (hsyh : sy < h) (hc : 0 ≤ c) (hc3 : c < 3) :
    0 ≤ (sy * w + sx) * 3 + c ∧ (sy * w + sx) * 3 + c < w * h * 3 := by
  have hw : 0 ≤ w := by omega
  have h1 : 0 ≤ sy * w := mul_nonneg hsy hw
  have h2 : (sy + 1) * w ≤ h * w := mul_le_mul_of_nonneg_right (by omega) hw
  constructor
  · omega
  · nlinarith
theorem forLoop_inv {σ : Type} (Inv : Nat → σ → Prop) (n : Nat) (body : Nat → σ → Option σ)
    (s : σ) (h0 : Inv 0 s)
    (hstep : ∀ i a, i < n → Inv i a → ∃ b, body i a = some b ∧ Inv (i + 1) b) :
    ∃ b, forLoop n body s = some b ∧ Inv n b := by
  induction n with
  | zero => exact ⟨s, rfl, h0⟩
  | succ k ih =>
    obtain ⟨a, ha, hinv⟩ := ih (fun i a hi => hstep i a (Nat.lt_succ_of_lt hi))
    obtain ⟨b, hb, hinvb⟩ := hstep k a (Nat.lt_succ_self k) hinv
    exact ⟨b, by simp [forLoop, ha, hb], hinvb⟩

theorem readAt_natCast (v : List UInt8) (k : Nat) : readAt v (k : Int) = v[k]? := by
  simp [readAt]

theorem writeAt_natCast (v : List UInt8) (k : Nat) (b : UInt8) (hk : k < v.length) :
    writeAt v (k : Int) b = some (v.set k b) := by
  simp [writeAt, hk]

theorem readAt_isSome {v : List UInt8} {i n : Int} (hlen : (v.length : Int) = n) (h0 : 0 ≤ i)
    (hi : i < n) : ∃ b, readAt v i = some b := by
  have hlt : i.toNat < v.length := by omega
  exact ⟨v[i.toNat], by simp [readAt, h0, List.getElem?_eq_getElem hlt]⟩

theorem flat_decode {nw x c : Nat} (y : Nat) (hx : x < nw) (hc : c < 3) :
    ((y * nw + x) * 3 + c) % 3 = c ∧ ((y * nw + x) * 3 + c) / 3 % nw = x ∧
      ((y * nw + x) * 3 + c) / 3 / nw = y := by
  have h3 : ((y * nw + x) * 3 + c) / 3 = y * nw + x := by omega
  have hpos : 0 < nw := by omega
  refine ⟨by omega, ?_, ?_⟩
  · rw [h3, Nat.add_comm, Nat.add_mul_mod_self_right, Nat.mod_eq_of_lt hx]
  · rw [h3, Nat.add_comm, Nat.add_mul_div_right _ _ hpos, Nat.div_eq_of_lt hx, Nat.zero_add]

theorem flat_lt {nw nh x y c : Nat} (hx : x < nw) (hy : y < nh) (hc : c < 3) :
    (y * nw + x) * 3 + c < nw * nh * 3 := by
  have h1 : (y + 1) * nw ≤ nh * nw := Nat.mul_le_mul_right nw hy
  nlinarith
theorem forLoop_last_none {σ : Type} (k : Nat) (body : Nat → σ → Option σ) (s : σ)
    (h : ∀ d, body k d = none) : forLoop (k + 1) body s = none := by
  unfold forLoop
  cases forLoop k body s with
  | none => rfl
  | some d => exact h d

theorem copyPixel_spec (img : sam_image_u8) (scale : ℚ)
    (hlen : (img.data.length : Int) = img.nx * img.ny * 3)
    (nw nh x y : Nat) (new_width : Int) (hnw : (nw : Int) = new_width)
    (hx : x < nw) (hy : y < nh) (sx sy : Int)
    (hsx : srcCoord x scale = some sx) (hsy : srcCoord y scale = some sy)
    (hb0 : 0 ≤ (sy * img.nx + sx) * 3)
    (hb1 : (sy * img.nx + sx) * 3 + 2 < img.nx * img.ny * 3)
    (d : List UInt8) (hd : Filled img scale nw (nw * nh * 3) ((y * nw + x) * 3) d) :
    ∃ e, copyPixel img scale new_width y x d = some e ∧
      Filled img scale nw (nw * nh * 3) ((y * nw + (x + 1)) * 3) e := by
  have key := forLoop_inv
    (fun c e => Filled img scale nw (nw * nh * 3) ((y * nw + x) * 3 + c) e) 3
    (fun c e => (readAt img.data ((sy * img.nx + sx) * 3 + c)).bind
      (writeAt e ((((y : Int) * new_width + (x : Int)) * 3) + c))) d
    (by simpa using hd)
    (by
      intro c e hc he
      obtain ⟨helen, hfill⟩ := he
      have hc3 : (c : Int) < 3 := by exact_mod_cast hc
      obtain ⟨v, hv⟩ := readAt_isSome (i := (sy * img.nx + sx) * 3 + (c : Int)) hlen
        (by omega) (by omega)
      have hdest : (((y : Int) * new_width + (x : Int)) * 3) + (c : Int)
          = (((y * nw + x) * 3 + c : Nat) : Int) := by
        rw [← hnw]; push_cast; ring
      have hklt : (y * nw + x) * 3 + c < e.length := by
        rw [helen]; exact flat_lt hx hy hc
      refine ⟨e.set ((y * nw + x) * 3 + c) v, ?_, ?_, ?_⟩
      · simp only [hv, Option.some_bind, hdest]
        exact writeAt_natCast e _ v hklt
      · simpa using helen
      · intro k hk
        by_cases hkeq : k = (y * nw + x) * 3 + c
        · subst hkeq
          obtain ⟨h1, h2, h3⟩ := flat_decode y hx hc
          rw [List.getElem?_set_self hklt]
          simp only [destVal, h1, h2, h3, hsx, hsy, Option.some_bind]
          exact hv.symm
        · rw [List.getElem?_set_ne (Ne.symm hkeq)]
          exact hfill k (by omega))
  obtain ⟨e, he, hfe⟩ := key
  refine ⟨e, ?_, ?_⟩
  · simp only [copyPixel, hsx, hsy, Option.some_bind]
    exact he
  · have : (y * nw + (x + 1)) * 3 = (y * nw + x) * 3 + 3 := by ring
    rw [this]; exact hfe

theorem downscale_img_filled (img : sam_image_u8) (scale : ℚ) (new_width new_height : Int)
    (hlen : (img.data.length : Int) = img.nx * img.ny * 3)
    (hnw : newSide img.nx scale = some new_width) (hnh : newSide img.ny scale = some new_height)
    (hw0 : 0 ≤ new_width) (hh0 : 0 ≤ new_height)
    (hsrc : ∀ x y : Nat, (x : Int) < new_width → (y : Int) < new_height →
      ∃ sx sy, srcCoord x scale = some sx ∧ srcCoord y scale = some sy ∧
        0 ≤ (sy * img.nx + sx) * 3 ∧ (sy * img.nx + sx) * 3 + 2 < img.nx * img.ny * 3) :
    ∃ data, downscale_img img scale
        = some { nx := new_width, ny := new_height, data := data } ∧
      Filled img scale new_width.toNat (new_width.toNat * new_height.toNat * 3)
        (new_width.toNat * new_height.toNat * 3) data := by
  have hnwc : ((new_width.toNat : Nat) : Int) = new_width := Int.toNat_of_nonneg hw0
  have hnhc : ((new_height.toNat : Nat) : Int) = new_height := Int.toNat_of_nonneg hh0
  have hsize : ¬ new_width * new_height * 3 < 0 := by
    have := mul_nonneg hw0 hh0
    omega
  have hN : (new_width * new_height * 3).toNat = new_width.toNat * new_height.toNat * 3 := by
    apply Int.ofNat_inj.mp
    push_cast
    rw [hnwc, hnhc, Int.toNat_of_nonneg (by have := mul_nonneg hw0 hh0; omega)]
  have hrow : ∀ (y : Nat) (e : List UInt8), y < new_height.toNat →
      Filled img scale new_width.toNat (new_width.toNat * new_height.toNat * 3)
        (y * new_width.toNat * 3) e →
      ∃ e2, forLoop new_width.toNat (fun x => copyPixel img scale new_width y x) e = some e2 ∧
        Filled img scale new_width.toNat (new_width.toNat * new_height.toNat * 3)
          ((y + 1) * new_width.toNat * 3) e2 := by
    intro y e hy he
    have key := forLoop_inv
      (fun x e2 => Filled img scale new_width.toNat (new_width.toNat * new_height.toNat * 3)
        ((y * new_width.toNat + x) * 3) e2) new_width.toNat
      (fun x => copyPixel img scale new_width y x) e (by simpa using he)
      (by
        intro x e2 hx he2
        obtain ⟨sx, sy, hsx, hsy, hb0, hb1⟩ := hsrc x y (by omega) (by omega)
        exact copyPixel_spec img scale hlen _ _ x y new_width hnwc hx hy sx sy hsx hsy hb0 hb1
          e2 he2)
    obtain ⟨e2, he2, hfe⟩ := key
    refine ⟨e2, he2, ?_⟩
    have : (y + 1) * new_width.toNat * 3 = (y * new_width.toNat + new_width.toNat) * 3 := by
      ring
    rw [this]; exact hfe
  have key := forLoop_inv
    (fun y e => Filled img scale new_width.toNat (new_width.toNat * new_height.toNat * 3)
      (y * new_width.toNat * 3) e)
    new_height.toNat
    (fun y => forLoop new_width.toNat (fun x => copyPixel img scale new_width y x))
    (List.replicate (new_width.toNat * new_height.toNat * 3) 0)
    ⟨by simp, fun k hk => absurd hk (by omega)⟩
    (fun y e hy he => hrow y e hy he)
  obtain ⟨e, he, hfe⟩ := key
  refine ⟨e, ?_, ?_⟩
  · simp only [downscale_img, hnw, hnh, Option.some_bind, hsize, if_false, hN, he,
      Option.map_some']
  · have : new_height.toNat * new_width.toNat * 3
        = new_width.toNat * new_height.toNat * 3 := by ring
    rw [this] at hfe; exact hfe

/-- Resampling of an image with sides up to `2^20` at a scale of at least 1: the call
returns, the new sides are the rounded ones and every output byte is the source byte at the
rounded coordinates, which lie inside the source. -/
theorem downscale_img_bounded (img : sam_image_u8) (s : ℚ) (hrgb : img.IsRGB)
    (hnx : img.nx ≤ 2 ^ 20) (hny : img.ny ≤ 2 ^ 20) (hs : 1 ≤ s) :
    ∃ data, downscale_img img s
        = some { nx := roundedSide img.nx s, ny := roundedSide img.ny s, data := data } ∧
      (0 ≤ roundedSide img.nx s ∧ roundedSide img.nx s ≤ img.nx) ∧
      (0 ≤ roundedSide img.ny s ∧ roundedSide img.ny s ≤ img.ny) ∧
      (data.length : Int) = roundedSide img.nx s * roundedSide img.ny s * 3 ∧
      ∀ x y c : Int, 0 ≤ x → x < roundedSide img.nx s → 0 ≤ y → y < roundedSide img.ny s →
        0 ≤ c → c < 3 →
        srcCoord x s = some (roundedSrc x s) ∧ srcCoord y s = some (roundedSrc y s) ∧
        (0 ≤ roundedSrc x s ∧ roundedSrc x s < img.nx) ∧
        (0 ≤ roundedSrc y s ∧ roundedSrc y s < img.ny) ∧
        ∃ v, readAt img.data ((roundedSrc y s * img.nx + roundedSrc x s) * 3 + c) = some v ∧
          readAt data ((y * roundedSide img.nx s + x) * 3 + c) = some v := by
  obtain ⟨h0x, h0y, hlen⟩ := hrgb
  obtain ⟨hnw, _, _, _, hw0, hwN⟩ := newSide_eq h0x hnx hs
  obtain ⟨hnh, _, _, _, hh0, hhN⟩ := newSide_eq h0y hny hs
  have hxr : ∀ x : Int, 0 ≤ x → x < roundedSide img.nx s →
      srcCoord x s = some (roundedSrc x s) ∧ 0 ≤ roundedSrc x s ∧ roundedSrc x s < img.nx :=
    fun x hx0 hx => srcCoord_in_range h0x hnx hs hnw hx0 hx
  have hyr : ∀ y : Int, 0 ≤ y → y < roundedSide img.ny s →
      srcCoord y s = some (roundedSrc y s) ∧ 0 ≤ roundedSrc y s ∧ roundedSrc y s < img.ny :=
    fun y hy0 hy => srcCoord_in_range h0y hny hs hnh hy0 hy
  obtain ⟨data, hout, hdlen, hfill⟩ := downscale_img_filled img s _ _ hlen hnw hnh hw0 hh0
    (by
      intro x y hx hy
      obtain ⟨e1, a1, a2⟩ := hxr x (Int.natCast_nonneg x) hx
      obtain ⟨e2, b1, b2⟩ := hyr y (Int.natCast_nonneg y) hy
      have hb := srcIndex_bounds a1 a2 b1 b2 (le_refl 0) (by norm_num : (0 : Int) < 3)
      have hb2 := srcIndex_bounds a1 a2 b1 b2 (by norm_num : (0 : Int) ≤ 2)
        (by norm_num : (2 : Int) < 3)
      exact ⟨_, _, e1, e2, by simpa using hb.1, hb2.2⟩)
  refine ⟨data, hout, ⟨hw0, hwN⟩, ⟨hh0, hhN⟩, ?_, ?_⟩
  · rw [hdlen]; push_cast
    rw [Int.toNat_of_nonneg hw0, Int.toNat_of_nonneg hh0]
  · intro x y c hx0 hx hy0 hy hc0 hc3
    obtain ⟨e1, a1, a2⟩ := hxr x hx0 hx
    obtain ⟨e2, b1, b2⟩ := hyr y hy0 hy
    refine ⟨e1, e2, ⟨a1, a2⟩, ⟨b1, b2⟩, ?_⟩
    obtain ⟨xn, rfl⟩ := Int.eq_ofNat_of_zero_le hx0
    obtain ⟨yn, rfl⟩ := Int.eq_ofNat_of_zero_le hy0
    obtain ⟨cn, rfl⟩ := Int.eq_ofNat_of_zero_le hc0
    have hxn : xn < (roundedSide img.nx s).toNat := by omega
    have hyn : yn < (roundedSide img.ny s).toNat := by omega
    have hcn : cn < 3 := by exact_mod_cast hc3
    have hk := flat_lt hxn hyn hcn
    have hval := hfill _ hk
    obtain ⟨h1, h2, h3⟩ := flat_decode yn hxn hcn
    simp only [destVal, h1, h2, h3, e1, e2, Option.some_bind] at hval
    have hidx : ((yn : Int) * roundedSide img.nx s + (xn : Int)) * 3 + (cn : Int)
        = (((yn * (roundedSide img.nx s).toNat + xn) * 3 + cn : Nat) : Int) := by
      push_cast; rw [Int.toNat_of_nonneg hw0]
    have hget : data[(yn * (roundedSide img.nx s).toNat + xn) * 3 + cn]?
        = some (data[(yn * (roundedSide img.nx s).toNat + xn) * 3 + cn]) :=
      List.getElem?_eq_getElem (by rw [hdlen]; exact hk)
    refine ⟨data[(yn * (roundedSide img.nx s).toNat + xn) * 3 + cn], ?_, ?_⟩
    · rw [← hval, hget]
    · have hread := readAt_natCast data ((yn * (roundedSide img.nx s).toNat + xn) * 3 + cn)
      rw [← hidx, hget] at hread
      exact hread

theorem fit_branch {W : Type} (E : Services W) (img : sam_image_u8) (window : Option SDL_Window)
    (w : W) (dm : SDL_DisplayMode) (mw mh : Int) (s : ℚ)
    (hdm : get_screen_size E window w = some dm) (hw : dm.w ≠ 0) (hh : dm.h ≠ 0)
    (hmw : maxSide dm.w = some mw) (hmh : maxSide dm.h = some mh)
    (hbig : img.ny > mh ∨ img.nx > mw) (hfs : fitScale img mw mh = some s) :
    downscale_img_to_screen E img window w
      = (downscale_img img s).map (fun new_img => (true, new_img)) := by
  have hz : ¬ (dm.h = 0 ∨ dm.w = 0) := by
    rintro (h | h)
    · exact hh h
    · exact hw h
  simp only [downscale_img_to_screen, hdm, hz, if_false, hmw, hmh, Option.some_bind, hbig,
    if_true, hfs]

theorem fit_noop {W : Type} (E : Services W) (img : sam_image_u8) (window : Option SDL_Window)
    (w : W) (dm : SDL_DisplayMode) (mw mh : Int)
    (hdm : get_screen_size E window w = some dm) (hw : dm.w ≠ 0) (hh : dm.h ≠ 0)
    (hmw : maxSide dm.w = some mw) (hmh : maxSide dm.h = some mh)
    (hx : img.nx ≤ mw) (hy : img.ny ≤ mh) :
    downscale_img_to_screen E img window w = some (true, img) := by
  have hz : ¬ (dm.h = 0 ∨ dm.w = 0) := by
    rintro (h | h)
    · exact hh h
    · exact hw h
  have hsmall : ¬ (img.ny > mh ∨ img.nx > mw) := by omega
  simp only [downscale_img_to_screen, hdm, hz, if_false, hmw, hmh, Option.some_bind, hsmall]

theorem maxSide_zero : maxSide 0 = some 0 := by decide!

theorem maxSide_ne_zero {side m : Int} (h : maxSide side = some m) (hm : 1 ≤ m) : side ≠ 0 := by
  intro h0
  subst h0
  rw [maxSide_zero] at h
  have := Option.some.inj h
  omega

/-! ## A read past the end of the source -/

theorem readAt_replicate_end (n : Nat) : readAt (List.replicate n 0) (n : Int) = none := by
  rw [readAt_natCast]
  exact List.getElem?_eq_none (by rw [List.length_replicate])

theorem strip_values :
    maxSide 4518555 = some 4292627 ∧ maxSide 1080 = some 1026 ∧
    fitScale stripImg 4292627 1026 = some (4243649 / 4194304) ∧
    newSide 4343129 (4243649 / 4194304) = some 4292628 ∧
    newSide 1 (4243649 / 4194304) = some 1 ∧
    srcCoord 4292627 (4243649 / 4194304) = some 4343129 ∧
    srcCoord 0 (4243649 / 4194304) = some 0 := by
  refine ⟨?_, ?_, ?_, ?_, ?_, ?_, ?_⟩ <;> decide!

theorem strip_nx : stripImg.nx = 4343129 := rfl

theorem strip_ny : stripImg.ny = 1 := rfl

theorem strip_data : stripImg.data = List.replicate 13029387 0 := rfl

theorem strip_read_none :
    readAt stripImg.data ((0 * stripImg.nx + stripImg.nx) * 3 + 0) = none := by
  rw [strip_nx, strip_data]
  have hidx : ((0 : Int) * 4343129 + 4343129) * 3 + 0 = ((13029387 : Nat) : Int) := by
    norm_num
  rw [hidx]
  exact readAt_replicate_end 13029387

theorem forLoop_none {σ : Type} (n k : Nat) (hk : k < n) (body : Nat → σ → Option σ) (s : σ)
    (h : ∀ d, body k d = none) : forLoop n body s = none := by
  induction n with
  | zero => omega
  | succ m ih =>
    rcases Nat.lt_succ_iff_lt_or_eq.mp hk with hlt | heq
    · simp [forLoop, ih hlt]
    · subst heq
      exact forLoop_last_none k body s h

theorem forLoop3_first_none {σ : Type} (body : Nat → σ → Option σ) (s : σ)
    (h : body 0 s = none) : forLoop 3 body s = none := by
  simp [forLoop, h]

theorem copyPixel_read_none (img : sam_image_u8) (scale : ℚ) (new_width : Int) (y x : Nat)
    (d : List UInt8) (sx sy : Int) (hsx : srcCoord x scale = some sx)
    (hsy : srcCoord y scale = some sy)
    (hread : readAt img.data ((sy * img.nx + sx) * 3 + 0) = none) :
    copyPixel img scale new_width y x d = none := by
  simp only [copyPixel, hsx, hsy, Option.some_bind]
  apply forLoop3_first_none
  simp only [Nat.cast_zero]
  rw [hread]
  rfl

/-- The resampling has no value once some output pixel reads outside the source data. -/
theorem downscale_img_read_none (img : sam_image_u8) (scale : ℚ) (new_width new_height : Int)
    (hnw : newSide img.nx scale = some new_width) (hnh : newSide img.ny scale = some new_height)
    (x y : Nat) (hx : (x : Int) < new_width) (hy : (y : Int) < new_height) (sx sy : Int)
    (hsx : srcCoord x scale = some sx) (hsy : srcCoord y scale = some sy)
    (hread : readAt img.data ((sy * img.nx + sx) * 3 + 0) = none) :
    downscale_img img scale = none := by
  have hrow : ∀ d : List UInt8,
      forLoop new_width.toNat (fun x2 => copyPixel img scale new_width y x2) d = none :=
    fun d => forLoop_none _ x (by omega) _ d
      (fun d2 => copyPixel_read_none img scale new_width y x d2 sx sy hsx hsy hread)
  have hrows : ∀ d : List UInt8,
      forLoop new_height.toNat
        (fun y2 => forLoop new_width.toNat (fun x2 => copyPixel img scale new_width y2 x2)) d
        = none :=
    fun d => forLoop_none _ y (by omega) _ d hrow
  simp only [downscale_img, hnw, hnh, Option.some_bind]
  split_ifs
  · rfl
  · rw [hrows]
    rfl

theorem strip_downscale_none : downscale_img stripImg (4243649 / 4194304) = none :=
  downscale_img_read_none stripImg _ 4292628 1 strip_values.2.2.2.1 strip_values.2.2.2.2.1
    4292627 0 (by decide) (by decide) stripImg.nx 0 strip_values.2.2.2.2.2.1
    strip_values.2.2.2.2.2.2 strip_read_none

/-- C1 fails on the code: for the 4343129×1 image on a 4518555×1080 display,
`downscale_img_to_screen` computes `max_width = 4292627`, the scale `4243649 / 2^22`
(about 1.0118) and `new_width = 4292628`; for the last output column `x = 4292627` the code
computes `src_x = 4343129`, which is the source width, so the read index
`(0*nx + src_x)*3` is `nx*ny*3`, the length of the source data: in the model the read, the
resampling and the fit have no value. -/
theorem downscale_reads_past_source :
    (maxSide 4518555 = some 4292627 ∧ maxSide 1080 = some 1026 ∧
      fitScale stripImg 4292627 1026 = some (4243649 / 4194304) ∧
      (1 : ℚ) < 4243649 / 4194304) ∧
    newSide stripImg.nx (4243649 / 4194304) = some 4292628 ∧
    srcCoord 4292627 (4243649 / 4194304) = some stripImg.nx ∧
    srcCoord 0 (4243649 / 4194304) = some 0 ∧
    (stripImg.data.length : Int) = stripImg.nx * stripImg.ny * 3 ∧
    readAt stripImg.data ((0 * stripImg.nx + stripImg.nx) * 3 + 0) = none ∧
    downscale_img stripImg (4243649 / 4194304) = none ∧
    downscale_img_to_screen (demoServices ⟨4518555, 1080⟩ true []) stripImg none 0 = none := by
  obtain ⟨hmw, hmh, hfs, hnw, _, hsx, hsy⟩ := strip_values
  refine ⟨⟨hmw, hmh, hfs, by norm_num⟩, hnw, hsx, hsy, ?_, ?_, strip_downscale_none, ?_⟩
  · rw [strip_nx, strip_ny, strip_data, List.length_replicate]
    norm_num
  · exact strip_read_none
  · have hbig : stripImg.ny > 1026 ∨ stripImg.nx > 4292627 := by
      rw [strip_nx]; exact Or.inr (by decide)
    rw [fit_branch (demoServices ⟨4518555, 1080⟩ true []) stripImg none 0 ⟨4518555, 1080⟩
      4292627 1026 _ rfl (by decide) (by decide) hmw hmh hbig hfs, strip_downscale_none]
    rfl

theorem fl_one : fl (1 : ℚ) = 1 := by
  have := fl_natCast 1 (by norm_num)
  simpa using this

theorem ofInt_bound {n : Int} (h0 : 0 ≤ n) (hB : n ≤ 2 ^ 31) :
    ofInt n = some (fl (n : ℚ)) := by
  unfold ofInt
  have h1 : (0 : ℚ) ≤ (n : ℚ) := by exact_mod_cast h0
  have h2 : (n : ℚ) ≤ 2 ^ 31 := by exact_mod_cast hB
  exact toF32_of_le h1 (h2.trans (by norm_num))

/-- Value of the fit scale for an image with sides up to `2^20` and bounds from 1 to
`2^31`. -/
theorem fitScale_eq (img : sam_image_u8) {mw mh : Int} (h0x : 0 ≤ img.nx) (h0y : 0 ≤ img.ny)
    (hnx : img.nx ≤ 2 ^ 20) (hny : img.ny ≤ 2 ^ 20) (hmw : 1 ≤ mw) (hmh : 1 ≤ mh)
    (hmwB : mw ≤ 2 ^ 31) (hmhB : mh ≤ 2 ^ 31) :
    fitScale img mw mh
      = some (max (fl ((img.nx : ℚ) / fl (mw : ℚ))) (fl ((img.ny : ℚ) / fl (mh : ℚ)))) ∧
    1 ≤ fl (mw : ℚ) ∧ 1 ≤ fl (mh : ℚ) := by
  have hflx : fl (img.nx : ℚ) = (img.nx : ℚ) := fl_intCast h0x (by omega)
  have hfly : fl (img.ny : ℚ) = (img.ny : ℚ) := fl_intCast h0y (by omega)
  have hmw1 : 1 ≤ fl (mw : ℚ) :=
    fl_one.symm.trans_le (fl_mono (by norm_num) (by exact_mod_cast hmw))
  have hmh1 : 1 ≤ fl (mh : ℚ) :=
    fl_one.symm.trans_le (fl_mono (by norm_num) (by exact_mod_cast hmh))
  have hX0 : (0 : ℚ) ≤ (img.nx : ℚ) := by exact_mod_cast h0x
  have hY0 : (0 : ℚ) ≤ (img.ny : ℚ) := by exact_mod_cast h0y
  have hXB : (img.nx : ℚ) ≤ 2 ^ 20 := by exact_mod_cast hnx
  have hYB : (img.ny : ℚ) ≤ 2 ^ 20 := by exact_mod_cast hny
  have e1 : ofInt img.ny = some (img.ny : ℚ) := by rw [ofInt_bound h0y (by omega), hfly]
  have e2 : ofInt mh = some (fl (mh : ℚ)) := ofInt_bound (by omega) hmhB
  have e3 : fdiv (img.ny : ℚ) (fl (mh : ℚ)) = some (fl ((img.ny : ℚ) / fl (mh : ℚ))) := by
    unfold fdiv
    rw [if_neg (by linarith)]
    exact toF32_of_le (div_nonneg hY0 (by linarith))
      ((div_le_self hY0 hmh1).trans (hYB.trans (by norm_num)))
  have e4 : ofInt img.nx = some (img.nx : ℚ) := by rw [ofInt_bound h0x (by omega), hflx]
  have e5 : ofInt mw = some (fl (mw : ℚ)) := ofInt_bound (by omega) hmwB
  have e6 : fdiv (img.nx : ℚ) (fl (mw : ℚ)) = some (fl ((img.nx : ℚ) / fl (mw : ℚ))) := by
    unfold fdiv
    rw [if_neg (by linarith)]
    exact toF32_of_le (div_nonneg hX0 (by linarith))
      ((div_le_self hX0 hmw1).trans (hXB.trans (by norm_num)))
  refine ⟨?_, hmw1, hmh1⟩
  simp only [fitScale, e1, e2, e3, e4, e5, e6, Option.some_bind]

/-- A side above its bound makes the rounded ratio at least 1 and keeps `side / ratio` within
an eighth of the bound. -/
theorem ratio_facts {side m : Int} (h1 : 1 ≤ m) (hlt : m < side) (hB : side ≤ 2 ^ 20) :
    1 ≤ fl ((side : ℚ) / fl (m : ℚ)) ∧
    (side : ℚ) ≤ fl ((side : ℚ) / fl (m : ℚ)) * ((m : ℚ) + 1 / 8) := by
  have hflm : fl (m : ℚ) = (m : ℚ) := fl_intCast (by omega) (by omega)
  rw [hflm]
  have hM1 : (1 : ℚ) ≤ (m : ℚ) := by exact_mod_cast h1
  have hMB : (m : ℚ) ≤ 2 ^ 20 := by
    have : m ≤ 2 ^ 20 := by omega
    exact_mod_cast this
  have hSM : (m : ℚ) < (side : ℚ) := by exact_mod_cast hlt
  have hq1 : (1 : ℚ) ≤ (side : ℚ) / (m : ℚ) := by
    rw [le_div_iff₀ (by linarith)]; linarith
  have hr1 : 1 ≤ fl ((side : ℚ) / (m : ℚ)) := fl_one.symm.trans_le (fl_mono (by norm_num) hq1)
  have hp : pow2 (-126) ≤ (side : ℚ) / (m : ℚ) := by
    have : pow2 (-126) ≤ 1 := by
      rw [show (1 : ℚ) = pow2 0 by rw [pow2_eq_zpow]; norm_num]
      exact pow2_le_pow2 (by norm_num)
    linarith
  have herr := fl_error hp
  rw [abs_le] at herr
  have hlow : (side : ℚ) / (m : ℚ) * (1 - 1 / 2 ^ 24) ≤ fl ((side : ℚ) / (m : ℚ)) := by
    have e : (side : ℚ) / (m : ℚ) * (1 - 1 / 2 ^ 24)
        = (side : ℚ) / (m : ℚ) - (side : ℚ) / (m : ℚ) / 2 ^ 24 := by ring
    rw [e]; linarith [herr.1]
  have hK : (m : ℚ) ≤ (1 - 1 / 2 ^ 24) * ((m : ℚ) + 1 / 8) := by
    have e : (1 - 1 / 2 ^ 24 : ℚ) * ((m : ℚ) + 1 / 8)
        = (m : ℚ) + (1 / 8 - (m : ℚ) / 2 ^ 24 - 1 / 2 ^ 27) := by ring
    rw [e]
    have : (m : ℚ) / 2 ^ 24 ≤ 2 ^ 20 / 2 ^ 24 := div_le_div_of_nonneg_right hMB (by norm_num)
    have e2 : (2 : ℚ) ^ 20 / 2 ^ 24 = 1 / 16 := by norm_num
    have e3 : (1 : ℚ) / 2 ^ 27 ≤ 1 / 16 := by norm_num
    linarith
  refine ⟨hr1, ?_⟩
  have hm0 : (0 : ℚ) < (m : ℚ) := by linarith
  have hqpos : (0 : ℚ) ≤ (side : ℚ) / (m : ℚ) := by linarith
  calc (side : ℚ) = (side : ℚ) / (m : ℚ) * (m : ℚ) := by field_simp
    _ ≤ (side : ℚ) / (m : ℚ) * ((1 - 1 / 2 ^ 24) * ((m : ℚ) + 1 / 8)) :=
        mul_le_mul_of_nonneg_left hK hqpos
    _ = (side : ℚ) / (m : ℚ) * (1 - 1 / 2 ^ 24) * ((m : ℚ) + 1 / 8) := by ring
    _ ≤ fl ((side : ℚ) / (m : ℚ)) * ((m : ℚ) + 1 / 8) :=
        mul_le_mul_of_nonneg_right hlow (by linarith)

theorem roundedSide_le_bound {side b : Int} {s : ℚ} (h0 : 0 ≤ side) (hB : side ≤ 2 ^ 20)
    (hs : 1 ≤ s) (hb0 : 0 ≤ b) (hbB : b ≤ 2 ^ 20) (h : (side : ℚ) ≤ s * ((b : ℚ) + 1 / 8)) :
    roundedSide side s ≤ b := by
  have hs0 : (0 : ℚ) < s := by linarith
  have hflN : fl (side : ℚ) = (side : ℚ) := fl_intCast h0 (by omega)
  have hq : (side : ℚ) / s ≤ (b : ℚ) + 1 / 8 := by
    rw [div_le_iff₀ hs0]; linarith
  have hN0 : (0 : ℚ) ≤ (side : ℚ) := by exact_mod_cast h0
  have hb18 : fl ((b : ℚ) + 1 / 8) = (b : ℚ) + 1 / 8 := by
    have := fl_eighths hb0 hbB 1 (by norm_num)
    norm_num at this
    exact this
  have hb58 : fl ((b : ℚ) + 5 / 8) = (b : ℚ) + 5 / 8 := by
    have := fl_eighths hb0 hbB 5 (by norm_num)
    norm_num at this
    exact this
  have ha : fl ((side : ℚ) / s) ≤ (b : ℚ) + 1 / 8 :=
    (fl_mono (div_nonneg hN0 hs0.le) hq).trans_eq hb18
  have ha0 : 0 ≤ fl ((side : ℚ) / s) := fl_nonneg (div_nonneg hN0 hs0.le)
  have ht : fl (fl ((side : ℚ) / s) + 1 / 2) ≤ (b : ℚ) + 5 / 8 :=
    (fl_mono (by linarith) (by linarith)).trans_eq hb58
  unfold roundedSide
  rw [hflN, ← Int.lt_add_one_iff, Int.floor_lt]
  push_cast
  linarith

/-- Fit of an image with sides up to `2^20` on a screen with bounds from 1 to `2^31`. -/
theorem fit_bounded {W : Type} (E : Services W) (img : sam_image_u8)
    (window : Option SDL_Window) (w : W) (dm : SDL_DisplayMode) (mw mh : Int)
    (hdm : get_screen_size E window w = some dm) (hrgb : img.IsRGB)
    (hnx : img.nx ≤ 2 ^ 20) (hny : img.ny ≤ 2 ^ 20)
    (hmw : maxSide dm.w = some mw) (hmh : maxSide dm.h = some mh)
    (hmw1 : 1 ≤ mw) (hmh1 : 1 ≤ mh) (hmwB : mw ≤ 2 ^ 31) (hmhB : mh ≤ 2 ^ 31) :
    ∃ out, downscale_img_to_screen E img window w = some (true, out) ∧
      out.nx ≤ img.nx ∧ out.ny ≤ img.ny ∧ out.nx ≤ mw ∧ out.ny ≤ mh ∧
      (img.nx ≤ mw → img.ny ≤ mh → out = img) ∧
      ((img.ny > mh ∨ img.nx > mw) → ∃ s, fitScale img mw mh = some s ∧ 1 ≤ s ∧
        out.nx = roundedSide img.nx s ∧ out.ny = roundedSide img.ny s) := by
  have hw := maxSide_ne_zero hmw hmw1
  have hh := maxSide_ne_zero hmh hmh1
  by_cases hbig : img.ny > mh ∨ img.nx > mw
  · obtain ⟨hfs, hfmw, hfmh⟩ := fitScale_eq img hrgb.1 hrgb.2.1 hnx hny hmw1 hmh1 hmwB hmhB
    set s := max (fl ((img.nx : ℚ) / fl (mw : ℚ))) (fl ((img.ny : ℚ) / fl (mh : ℚ))) with hsdef
    have hsx : fl ((img.nx : ℚ) / fl (mw : ℚ)) ≤ s := le_max_left _ _
    have hsy : fl ((img.ny : ℚ) / fl (mh : ℚ)) ≤ s := le_max_right _ _
    have hs1 : 1 ≤ s := by
      rcases hbig with h | h
      · exact (ratio_facts hmh1 h hny).1.trans hsy
      · exact (ratio_facts hmw1 h hnx).1.trans hsx
    obtain ⟨data, hout, ⟨_, hwN⟩, ⟨_, hhN⟩, _, _⟩ :=
      downscale_img_bounded img s hrgb hnx hny hs1
    have hbx : roundedSide img.nx s ≤ mw := by
      by_cases hc : img.nx > mw
      · have hf := (ratio_facts hmw1 hc hnx).2
        have : (img.nx : ℚ) ≤ s * ((mw : ℚ) + 1 / 8) :=
          hf.trans (mul_le_mul_of_nonneg_right hsx (by
            have : (0 : ℚ) ≤ (mw : ℚ) := by exact_mod_cast (by omega : (0 : Int) ≤ mw)
            linarith))
        exact roundedSide_le_bound hrgb.1 hnx hs1 (by omega) (by omega) this
      · omega
    have hby : roundedSide img.ny s ≤ mh := by
      by_cases hc : img.ny > mh
      · have hf := (ratio_facts hmh1 hc hny).2
        have : (img.ny : ℚ) ≤ s * ((mh : ℚ) + 1 / 8) :=
          hf.trans (mul_le_mul_of_nonneg_right hsy (by
            have : (0 : ℚ) ≤ (mh : ℚ) := by exact_mod_cast (by omega : (0 : Int) ≤ mh)
            linarith))
        exact roundedSide_le_bound hrgb.2.1 hny hs1 (by omega) (by omega) this
      · omega
    refine ⟨{ nx := roundedSide img.nx s, ny := roundedSide img.ny s, data := data }, ?_, hwN,
      hhN, hbx, hby, ?_, fun _ => ⟨s, hfs, hs1, rfl, rfl⟩⟩
    · rw [fit_branch E img window w dm mw mh s hdm hw hh hmw hmh hbig hfs, hout]
      rfl
    · intro hx hy
      omega
  · have hx : img.nx ≤ mw := by omega
    have hy : img.ny ≤ mh := by omega
    exact ⟨img, fit_noop E img window w dm mw mh hdm hw hh hmw hmh hx hy, le_refl _, le_refl _,
      hx, hy, fun _ _ => rfl, fun h => absurd h hbig⟩

theorem fitScale_dims (img : sam_image_u8) (mw mh : Int) :
    fitScale img mw mh = fitScale { nx := img.nx, ny := img.ny, data := [] } mw mh := rfl

theorem scenario_values :
    maxSide 1920 = some 1824 ∧ maxSide 1080 = some 1026 ∧
    fitScale { nx := 4000, ny := 3000, data := [] } 1824 1026 = some (12264047 / 4194304) ∧
    fl (500 / 171) = 12264047 / 4194304 ∧
    toMillis (12264047 / 4194304) = 2924 ∧
    roundedSide 4000 (12264047 / 4194304) = 1368 ∧
    roundedSide 3000 (12264047 / 4194304) = 1026 := by
  refine ⟨?_, ?_, ?_, ?_, ?_, ?_, ?_⟩ <;> decide!

theorem fit_4000x3000 {W : Type} (E : Services W) (img : sam_image_u8)
    (window : Option SDL_Window) (w : W)
    (hdm : get_screen_size E window w = some { w := 1920, h := 1080 }) (hrgb : img.IsRGB)
    (hnx : img.nx = 4000) (hny : img.ny = 3000) :
    fitScale img 1824 1026 = some (12264047 / 4194304) ∧
    ∃ out, downscale_img_to_screen E img window w = some (true, out) ∧
      out.nx = 1368 ∧ out.ny = 1026 := by
  obtain ⟨hmw, hmh, hfs, _, _, hrx, hry⟩ := scenario_values
  have hfs2 : fitScale img 1824 1026 = some (12264047 / 4194304) := by
    rw [fitScale_dims, hnx, hny]; exact hfs
  obtain ⟨out, hout, _, _, _, _, _, hdims⟩ :=
    fit_bounded E img window w ⟨1920, 1080⟩ 1824 1026 hdm hrgb (by rw [hnx]; decide)
      (by rw [hny]; decide) hmw hmh (by decide) (by decide) (by decide) (by decide)
  obtain ⟨s, hs, _, hox, hoy⟩ := hdims (Or.inl (by rw [hny]; decide))
  rw [hfs2] at hs
  have hs2 := Option.some.inj hs
  subst hs2
  rw [hnx] at hox
  rw [hny] at hoy
  exact ⟨hfs2, out, hout, hox.trans hrx, hoy.trans hry⟩

theorem img4000x3000_isRGB : img4000x3000.IsRGB := by
  have hnx : img4000x3000.nx = 4000 := rfl
  have hny : img4000x3000.ny = 3000 := rfl
  have hdata : img4000x3000.data = List.replicate 36000000 0 := rfl
  refine ⟨by rw [hnx]; decide, by rw [hny]; decide, ?_⟩
  rw [hnx, hny, hdata, List.length_replicate]
  norm_num

/-- C7 as stated fails: for a 4000×3000 image on a 1920×1080 screen the scale is not 3.000 to
three decimal places and the image left by `downscale_img_to_screen` is not 1333×1000. -/
theorem fit_scenario_counterexample :
    (maxSide 1920 = some 1824 ∧ maxSide 1080 = some 1026) ∧
    fitScale img4000x3000 1824 1026 = some (12264047 / 4194304) ∧
    toMillis (12264047 / 4194304) ≠ 3000 ∧
    ¬ ∃ out, downscale_img_to_screen (demoServices ⟨1920, 1080⟩ true []) img4000x3000 none 0
        = some (true, out) ∧ out.nx = 1333 ∧ out.ny = 1000 := by
  obtain ⟨hmw, hmh, _, _, hmil, _, _⟩ := scenario_values
  obtain ⟨hfs, out, hfit, hx, _⟩ := fit_4000x3000 (demoServices ⟨1920, 1080⟩ true [])
    img4000x3000 none 0 rfl img4000x3000_isRGB rfl rfl
  refine ⟨⟨hmw, hmh⟩, hfs, by rw [hmil]; decide, ?_⟩
  rintro ⟨out2, hout2, hx2, _⟩
  rw [hfit] at hout2
  have ho := (Prod.mk.inj (Option.some.inj hout2)).2
  rw [← ho, hx] at hx2
  exact absurd hx2 (by decide)

/-- C7 amended. Fit scenario: for a 4000×3000 RGB image on a 1920×1080 screen with margin
`0.05f`, `max_width = 1824`, `max_height = 1026`, the scale `max(4000/1824, 3000/1026)` is the
binary32 number nearest to `500/171`, namely `12264047 / 2^22 = 2.92397…`, which is 2.924 to
three decimal places, and the image left has sides 1368×1026. -/
theorem fit_scenario {W : Type} (E : Services W) (img : sam_image_u8)
    (window : Option SDL_Window) (w : W)
    (hdm : get_screen_size E window w = some { w := 1920, h := 1080 }) (hrgb : img.IsRGB)
    (hnx : img.nx = 4000) (hny : img.ny = 3000) :
    maxSide 1920 = some 1824 ∧ maxSide 1080 = some 1026 ∧
    fitScale img 1824 1026 = some (12264047 / 4194304) ∧
    fl (500 / 171) = 12264047 / 4194304 ∧
    toMillis (12264047 / 4194304) = 2924 ∧
    ∃ out, downscale_img_to_screen E img window w = some (true, out) ∧
      out.nx = 1368 ∧ out.ny = 1026 := by
  obtain ⟨hmw, hmh, _, hfl, hmil, _, _⟩ := scenario_values
  obtain ⟨hfs, hout⟩ := fit_4000x3000 E img window w hdm hrgb hnx hny
  exact ⟨hmw, hmh, hfs, hfl, hmil, hout⟩

/-- Witness of C7 amended: the black 4000×3000 image on the 1920×1080 display. -/
theorem fit_scenario_witness :
    (img4000x3000.IsRGB ∧ img4000x3000.nx = 4000 ∧ img4000x3000.ny = 3000) ∧
    maxSide 1920 = some 1824 ∧ maxSide 1080 = some 1026 ∧
    fitScale img4000x3000 1824 1026 = some (12264047 / 4194304) ∧
    fl (500 / 171) = 12264047 / 4194304 ∧
    toMillis (12264047 / 4194304) = 2924 ∧
    ∃ out, downscale_img_to_screen (demoServices ⟨1920, 1080⟩ true []) img4000x3000 none 0
        = some (true, out) ∧ out.nx = 1368 ∧ out.ny = 1026 :=
  ⟨⟨img4000x3000_isRGB, rfl, rfl⟩,
    fit_scenario (demoServices ⟨1920, 1080⟩ true []) img4000x3000 none 0 rfl
      img4000x3000_isRGB rfl rfl⟩

/-! ## Mask textures and overlays -/

theorem writeAt_of_lt (d : List UInt8) (j : Int) (v : UInt8) (h0 : 0 ≤ j)
    (hlt : j.toNat < d.length) : writeAt d j v = some (d.set j.toNat v) := by
  simp [writeAt, h0, hlt]

theorem mask_to_rgb_isSome (mask : sam_image_u8) (hm : mask.IsMask) :
    ∃ rgb, mask_to_rgb mask = some rgb := by
  obtain ⟨hnx, hny, hlen⟩ := hm
  have hp : 0 ≤ mask.nx * mask.ny := mul_nonneg hnx hny
  have h3 : 3 * mask.nx * mask.ny = 3 * (mask.nx * mask.ny) := by ring
  have hsize : ¬ 3 * mask.nx * mask.ny < 0 := by omega
  have key := forLoop_inv
    (fun _ (d : List UInt8) => d.length = (3 * mask.nx * mask.ny).toNat)
    (mask.nx * mask.ny).toNat
    (fun i d =>
      (readAt mask.data i).bind fun v =>
      (writeAt d (3 * (i : Int) + 0) v).bind fun d1 =>
      (writeAt d1 (3 * (i : Int) + 1) v).bind fun d2 =>
      writeAt d2 (3 * (i : Int) + 2) v)
    (List.replicate (3 * mask.nx * mask.ny).toNat 0) (by simp)
    (by
      intro i d hi hd
      obtain ⟨v, hv⟩ := readAt_isSome (i := (i : Int)) hlen (Int.natCast_nonneg i) (by omega)
      have w0 := writeAt_of_lt d (3 * (i : Int) + 0) v (by omega) (by omega)
      have w1 := writeAt_of_lt (d.set (3 * (i : Int) + 0).toNat v) (3 * (i : Int) + 1) v
        (by omega) (by rw [List.length_set]; omega)
      have w2 := writeAt_of_lt
        ((d.set (3 * (i : Int) + 0).toNat v).set (3 * (i : Int) + 1).toNat v)
        (3 * (i : Int) + 2) v (by omega) (by rw [List.length_set, List.length_set]; omega)
      refine ⟨((d.set (3 * (i : Int) + 0).toNat v).set (3 * (i : Int) + 1).toNat v).set
        (3 * (i : Int) + 2).toNat v, ?_, ?_⟩
      · show ((readAt mask.data i).bind fun v =>
          (writeAt d (3 * (i : Int) + 0) v).bind fun d1 =>
          (writeAt d1 (3 * (i : Int) + 1) v).bind fun d2 =>
          writeAt d2 (3 * (i : Int) + 2) v) = _
        simp only [hv, Option.some_bind, w0, w1]
        exact w2
      · show List.length _ = _
        simp only [List.length_set]
        exact hd)
  obtain ⟨d, hd, _⟩ := key
  exact ⟨{ nx := mask.nx, ny := mask.ny, data := d },
    by simp only [mask_to_rgb, hsize, if_false, hd, Option.map_some']⟩

theorem uploadMasks_spec {W : Type} (E : Services W) (masks : List sam_image_u8)
    (hm : ∀ m ∈ masks, m.IsMask) (acc : List GLuint) (w : W) :
    ∃ texs w', uploadMasks E masks acc w = some (acc ++ texs, w') ∧
      texs.length = masks.length ∧
      ∀ (i : Nat) (m : sam_image_u8), masks[i]? = some m →
        ∃ rgb wi, mask_to_rgb m = some rgb ∧ texs[i]? = some (E.createGLTexture rgb wi).1 := by
  induction masks generalizing acc w with
  | nil => exact ⟨[], w, by simp [uploadMasks], rfl, by simp⟩
  | cons mask rest ih =>
    obtain ⟨rgb, hrgb⟩ := mask_to_rgb_isSome mask (hm mask (List.mem_cons_self _ _))
    obtain ⟨texs, w', hup, hlen, hidx⟩ :=
      ih (fun m hmem => hm m (List.mem_cons_of_mem _ hmem))
        (acc ++ [(E.createGLTexture rgb w).1]) (E.createGLTexture rgb w).2
    refine ⟨(E.createGLTexture rgb w).1 :: texs, w', ?_, by simp [hlen], ?_⟩
    · simp only [uploadMasks, hrgb, hup]
      simp
    · intro i m hi
      cases i with
      | zero =>
        simp only [List.getElem?_cons_zero, Option.some.injEq] at hi
        subst hi
        exact ⟨rgb, w, hrgb, by simp⟩
      | succ j =>
        simp only [List.getElem?_cons_succ] at hi
        simpa using hidx j m hi

theorem drawAllMasks_length (i : Nat) (textures : List GLuint) :
    (drawAllMasks i textures).length = textures.length := by
  induction textures generalizing i with
  | nil => rfl
  | cons t rest ih => simp [drawAllMasks, ih]

theorem drawAllMasks_getElem (i : Nat) (textures : List GLuint) (j : Nat) (t : GLuint)
    (ht : textures[j]? = some t) :
    (drawAllMasks i textures)[j]? = some
      { tex := t, r := if i + j = 0 then 255 else 0, g := if i + j = 1 then 255 else 0,
        b := if i + j = 2 then 255 else 0, a := 172 } := by
  induction textures generalizing i j with
  | nil => simp at ht
  | cons u rest ih =>
    cases j with
    | zero =>
      simp only [List.getElem?_cons_zero, Option.some.injEq] at ht
      subst ht
      simp [drawAllMasks]
    | succ k =>
      simp only [List.getElem?_cons_succ] at ht
      have := ih (i + 1) k ht
      simp only [drawAllMasks, List.getElem?_cons_succ]
      rw [this]
      have hk : i + 1 + k = i + (k + 1) := by omega
      rw [hk]

theorem drawOverlays_length (textures : List GLuint) (showAll : Bool) :
    (drawOverlays textures showAll).length
      = if showAll then textures.length else min textures.length 1 := by
  cases showAll with
  | true => simp [drawOverlays, drawAllMasks_length]
  | false =>
    cases textures with
    | nil => simp [drawOverlays]
    | cons t rest => simp [drawOverlays]

/-- C4 as stated fails: in a frame where a left click makes `sam_compute_masks` return four
masks and "Output multiple masks" is on, four overlays are drawn, not `min 4 3`; the fourth
has tint `(0, 0, 0, 172)`. -/
theorem overlay_count_counterexample :
    (frame (demoServices ⟨1920, 1080⟩ true [mask1x1, mask1x1, mask1x1, mask1x1]) 0
        { events := [.mouseButtonDown SDL_BUTTON_LEFT 5 5], clickSegmentOnMove := false,
          clickOutputMultipleMasks := true }
        (initLoopState img2x2 0) 1).map
      (fun r => (r.state.outputMultipleMasks, r.state.masks.length, r.overlays.length,
        r.overlays[3]?))
      = some (true, 4, 4, some { tex := 4, r := 0, g := 0, b := 0, a := 172 }) ∧
    (drawOverlays [1, 2, 3, 4] true).length ≠ min [1, 2, 3, 4].length 3 := by
  constructor
  · decide!
  · decide

/-- C4 amended. Overlay count: for every sequence of masks (each `nx*ny` bytes) the upload
pushes one texture per mask, and the number of overlays drawn is `len(masks)` when
`outputMultipleMasks` is true and `min(len(masks), 1)` when it is false; this is
`min(len(masks), 3)` resp. `min(len(masks), 1)` whenever there are at most three masks. A
mask of index 3 or higher is drawn as well, with tint `(0, 0, 0, 172)`. -/
theorem overlay_count {W : Type} (E : Services W) (masks : List sam_image_u8) (w : W)
    (showAll : Bool) (hm : ∀ m ∈ masks, m.IsMask) :
    ∃ texs w', uploadMasks E masks [] w = some (texs, w') ∧ texs.length = masks.length ∧
      (drawOverlays texs showAll).length
        = (if showAll then masks.length else min masks.length 1) ∧
      (masks.length ≤ 3 →
        (drawOverlays texs showAll).length = min masks.length (if showAll then 3 else 1)) ∧
      ∀ (i : Nat) (t : GLuint), 3 ≤ i → texs[i]? = some t →
        (drawOverlays texs true)[i]? = some { tex := t, r := 0, g := 0, b := 0, a := 172 } := by
  obtain ⟨texs, w', hup, hlen, _⟩ := uploadMasks_spec E masks hm [] w
  refine ⟨texs, w', by simpa using hup, hlen, ?_, ?_, ?_⟩
  · rw [drawOverlays_length, hlen]
  · intro h3
    rw [drawOverlays_length, hlen]
    cases showAll with
    | true => simp [h3]
    | false => simp
  · intro i t hi ht
    have h := drawAllMasks_getElem 0 texs i t ht
    have h0 : ¬ (i = 0) := by omega
    have h1 : ¬ (i = 1) := by omega
    have h2 : ¬ (i = 2) := by omega
    simpa [drawOverlays, h0, h1, h2] using h

/-- Witness of C4 amended: two 1×1 masks in multi-mask mode. -/
theorem overlay_count_witness :
    (∀ m ∈ [mask1x1, mask1x1], m.IsMask) ∧
    ∃ texs w', uploadMasks (demoServices ⟨1920, 1080⟩ true []) [mask1x1, mask1x1] [] 0
        = some (texs, w') ∧ texs.length = [mask1x1, mask1x1].length ∧
      (drawOverlays texs true).length
        = (if true = true then [mask1x1, mask1x1].length else min [mask1x1, mask1x1].length 1) ∧
      ([mask1x1, mask1x1].length ≤ 3 →
        (drawOverlays texs true).length
          = min [mask1x1, mask1x1].length (if true = true then 3 else 1)) ∧
      ∀ (i : Nat) (t : GLuint), 3 ≤ i → texs[i]? = some t →
        (drawOverlays texs true)[i]? = some { tex := t, r := 0, g := 0, b := 0, a := 172 } :=
  ⟨by simp [mask1x1, sam_image_u8.IsMask],
    overlay_count (demoServices ⟨1920, 1080⟩ true []) [mask1x1, mask1x1] 0 true
      (by simp [mask1x1, sam_image_u8.IsMask])⟩

/-- C5. Overlay tints and order: for a non-empty sequence of masks (each `nx*ny` bytes) the
upload pushes one texture per mask, texture `i` being created from the RGB expansion of mask
`i`. In single-mask mode the overlays drawn are exactly `[texture 0 with tint (0,0,255,128)]`.
In multi-mask mode overlay `i` is texture `i`, with 255 in channel `i` for `i = 0, 1, 2`
(red, green, blue), 0 in the other channels and alpha 172; three textures `[a, b, c]` give
`[a red 172, b green 172, c blue 172]`. -/
theorem overlay_tints_order {W : Type} (E : Services W) (masks : List sam_image_u8) (w : W)
    (hne : masks ≠ []) (hm : ∀ m ∈ masks, m.IsMask) :
    ∃ texs w', uploadMasks E masks [] w = some (texs, w') ∧ texs.length = masks.length ∧
      (∀ (i : Nat) (m : sam_image_u8), masks[i]? = some m →
        ∃ rgb wi, mask_to_rgb m = some rgb ∧ texs[i]? = some (E.createGLTexture rgb wi).1) ∧
      (∃ t0, texs[0]? = some t0 ∧
        drawOverlays texs false = [{ tex := t0, r := 0, g := 0, b := 255, a := 128 }]) ∧
      (drawOverlays texs true).length = texs.length ∧
      (∀ (i : Nat) (t : GLuint), texs[i]? = some t →
        (drawOverlays texs true)[i]? = some
          { tex := t, r := if i = 0 then 255 else 0, g := if i = 1 then 255 else 0,
            b := if i = 2 then 255 else 0, a := 172 }) ∧
      (∀ a b c : GLuint, texs = [a, b, c] →
        drawOverlays texs true =
          [{ tex := a, r := 255, g := 0, b := 0, a := 172 },
           { tex := b, r := 0, g := 255, b := 0, a := 172 },
           { tex := c, r := 0, g := 0, b := 255, a := 172 }]) := by
  obtain ⟨texs, w', hup, hlen, hidx⟩ := uploadMasks_spec E masks hm [] w
  refine ⟨texs, w', by simpa using hup, hlen, hidx, ?_, ?_, ?_, ?_⟩
  · cases texs with
    | nil =>
      have : masks.length = 0 := by simpa using hlen.symm
      exact absurd (List.length_eq_zero.mp this) hne
    | cons t0 rest => exact ⟨t0, by simp, by simp [drawOverlays]⟩
  · simp [drawOverlays, drawAllMasks_length]
  · intro i t ht
    simpa [drawOverlays] using drawAllMasks_getElem 0 texs i t ht
  · intro a b c habc
    subst habc
    rfl

/-- Witness of C5: three 1×1 masks. -/
theorem overlay_tints_order_witness :
    ([mask1x1, mask1x1, mask1x1] ≠ [] ∧ ∀ m ∈ [mask1x1, mask1x1, mask1x1], m.IsMask) ∧
    ∃ texs w', uploadMasks (demoServices ⟨1920, 1080⟩ true []) [mask1x1, mask1x1, mask1x1] [] 7
        = some (texs, w') ∧ texs.length = [mask1x1, mask1x1, mask1x1].length ∧
      (∀ (i : Nat) (m : sam_image_u8), [mask1x1, mask1x1, mask1x1][i]? = some m →
        ∃ rgb wi, mask_to_rgb m = some rgb ∧
          texs[i]? = some ((demoServices ⟨1920, 1080⟩ true []).createGLTexture rgb wi).1) ∧
      (∃ t0, texs[0]? = some t0 ∧
        drawOverlays texs false = [{ tex := t0, r := 0, g := 0, b := 255, a := 128 }]) ∧
      (drawOverlays texs true).length = texs.length ∧
      (∀ (i : Nat) (t : GLuint), texs[i]? = some t →
        (drawOverlays texs true)[i]? = some
          { tex := t, r := if i = 0 then 255 else 0, g := if i = 1 then 255 else 0,
            b := if i = 2 then 255 else 0, a := 172 }) ∧
      (∀ a b c : GLuint, texs = [a, b, c] →
        drawOverlays texs true =
          [{ tex := a, r := 255, g := 0, b := 0, a := 172 },
           { tex := b, r := 0, g := 255, b := 0, a := 172 },
           { tex := c, r := 0, g := 0, b := 255, a := 172 }]) :=
  ⟨⟨by simp, by simp [mask1x1, sam_image_u8.IsMask]⟩,
    overlay_tints_order (demoServices ⟨1920, 1080⟩ true []) [mask1x1, mask1x1, mask1x1] 7
      (by simp) (by simp [mask1x1, sam_image_u8.IsMask])⟩


/-! ## Pointer tracking and the trigger decision -/

theorem pollEvents_pointer {W : Type} (E : Services W) (window : SDL_Window)
    (events : List SDL_Event) (hp : ∀ ev ∈ events, isPointerEvent ev = true)
    (cm : Bool) (s : LoopState) (w : W) :
    pollEvents E window events cm s w
      = some (cm || events.any isLeftPress,
          { s with x := (trackPos s.segmentOnMove (s.x, s.y) events).1,
                   y := (trackPos s.segmentOnMove (s.x, s.y) events).2 }, w) := by
  induction events generalizing cm s with
  | nil => simp [pollEvents, trackPos]
  | cons ev rest ih =>
    have hrest : ∀ e ∈ rest, isPointerEvent e = true :=
      fun e he => hp e (List.mem_cons_of_mem _ he)
    have hev := hp ev (List.mem_cons_self _ _)
    cases ev with
    | mouseButtonDown button ex ey =>
      have hb : button = SDL_BUTTON_LEFT := by simpa [isPointerEvent] using hev
      simp [pollEvents, processEvent, hb, ih hrest, trackPos, isLeftPress]
    | mouseMotion ex ey =>
      cases hh : s.segmentOnMove with
      | true => simp [pollEvents, processEvent, hh, ih hrest, trackPos, isLeftPress]
      | false => simp [pollEvents, processEvent, hh, ih hrest, trackPos, isLeftPress]
    | quit => simp [isPointerEvent] at hev
    | windowClose b => simp [isPointerEvent] at hev
    | dropFile f => simp [isPointerEvent] at hev
    | other => simp [isPointerEvent] at hev

theorem computeMasksStep_spec {W : Type} (E : Services W)
    (hE : ∀ img pt w0, ∀ m ∈ (E.sam_compute_masks img pt w0).1, m.IsMask)
    (s : LoopState) (w : W) :
    ∃ s3 w', computeMasksStep E s w = some (s3, w') ∧ s3.x = s.x ∧ s3.y = s.y ∧
      s3.masks = (E.sam_compute_masks s.img { x := s.x, y := s.y } w).1 := by
  obtain ⟨texs, w', hup, _, _⟩ := uploadMasks_spec E
    (E.sam_compute_masks s.img { x := s.x, y := s.y } w).1 (hE _ _ _) []
    (if s.maskTextures.isEmpty then (E.sam_compute_masks s.img { x := s.x, y := s.y } w).2
      else E.glDeleteTextures s.maskTextures
        (E.sam_compute_masks s.img { x := s.x, y := s.y } w).2)
  simp only [List.nil_append] at hup
  exact ⟨{ s with masks := (E.sam_compute_masks s.img { x := s.x, y := s.y } w).1,
                  maskTextures := texs }, w',
    by simp only [computeMasksStep, hup, Option.map_some'], rfl, rfl, rfl⟩

theorem computeMasksStep_tracker {W : Type} (E : Services W) (s : LoopState) (w : W)
    (r : LoopState × W) (h : computeMasksStep E s w = some r) :
    r.1.x = s.x ∧ r.1.y = s.y ∧ r.1.xLast = s.xLast ∧ r.1.yLast = s.yLast ∧
      r.1.segmentOnMove = s.segmentOnMove := by
  simp only [computeMasksStep, Option.map_eq_some'] at h
  obtain ⟨a, _, ha⟩ := h
  subst ha
  exact ⟨rfl, rfl, rfl, rfl, rfl⟩

theorem uploadMasks_recording {W : Type} (E : Services W) (masks : List sam_image_u8)
    (acc : List GLuint) (w : W) (log : List (sam_image_u8 × sam_point)) :
    uploadMasks (recording E) masks acc (w, log)
      = (uploadMasks E masks acc w).map (fun r => (r.1, (r.2, log))) := by
  induction masks generalizing acc w with
  | nil => rfl
  | cons mask rest ih =>
    cases hrgb : mask_to_rgb mask with
    | none => simp [uploadMasks, hrgb]
    | some rgb =>
      simp only [uploadMasks, hrgb]
      exact ih _ _

theorem computeMasksStep_recording {W : Type} (E : Services W) (s : LoopState) (w : W)
    (log : List (sam_image_u8 × sam_point)) :
    computeMasksStep (recording E) s (w, log)
      = (computeMasksStep E s w).map
          (fun r => (r.1, (r.2, log ++ [(s.img, { x := s.x, y := s.y })]))) := by
  have hw : (if s.maskTextures.isEmpty
        then ((recording E).sam_compute_masks s.img { x := s.x, y := s.y } (w, log)).2
        else (recording E).glDeleteTextures s.maskTextures
          ((recording E).sam_compute_masks s.img { x := s.x, y := s.y } (w, log)).2)
      = ((if s.maskTextures.isEmpty
          then (E.sam_compute_masks s.img { x := s.x, y := s.y } w).2
          else E.glDeleteTextures s.maskTextures
            (E.sam_compute_masks s.img { x := s.x, y := s.y } w).2),
         log ++ [(s.img, { x := s.x, y := s.y })]) := by
    cases s.maskTextures.isEmpty with
    | true => rfl
    | false => rfl
  have hdef : computeMasksStep (recording E) s (w, log)
      = (uploadMasks (recording E)
          ((recording E).sam_compute_masks s.img { x := s.x, y := s.y } (w, log)).1 []
          (if s.maskTextures.isEmpty
            then ((recording E).sam_compute_masks s.img { x := s.x, y := s.y } (w, log)).2
            else (recording E).glDeleteTextures s.maskTextures
              ((recording E).sam_compute_masks s.img { x := s.x, y := s.y } (w, log)).2)).map
          (fun r => ({ s with
            masks := ((recording E).sam_compute_masks s.img { x := s.x, y := s.y } (w, log)).1,
            maskTextures := r.1 }, r.2)) := rfl
  rw [hdef, hw, uploadMasks_recording]
  simp only [computeMasksStep, Option.map_map]
  rfl

theorem frame_of_quiet {W : Type} (E : Services W) (window : SDL_Window) (inp : FrameInput)
    (s : LoopState) (w : W) (polled : Bool) (s1 : LoopState) (w1 : W)
    (hpoll : pollEvents E window inp.events false s w = some (polled, s1, w1))
    (ht : triggerFlag polled s1 = false) :
    frame E window inp s w
      = some (finishFrame inp { s1 with xLast := s1.x, yLast := s1.y } w1 []) := by
  simp [frame, hpoll, ht]

theorem frame_of_trigger {W : Type} (E : Services W) (window : SDL_Window) (inp : FrameInput)
    (s : LoopState) (w : W) (polled : Bool) (s1 : LoopState) (w1 : W) (s3 : LoopState) (w2 : W)
    (hpoll : pollEvents E window inp.events false s w = some (polled, s1, w1))
    (ht : triggerFlag polled s1 = true)
    (hstep : computeMasksStep E { s1 with xLast := s1.x, yLast := s1.y } w1 = some (s3, w2)) :
    frame E window inp s w = some (finishFrame inp s3 w2 [{ x := s1.x, y := s1.y }]) := by
  simp [frame, hpoll, ht, hstep]

theorem frame_cases {W : Type} (E : Services W) (window : SDL_Window) (inp : FrameInput)
    (s : LoopState) (w : W) (r : FrameResult W) (h : frame E window inp s w = some r) :
    ∃ polled s1 w1, pollEvents E window inp.events false s w = some (polled, s1, w1) ∧
      ((triggerFlag polled s1 = false ∧
          r = finishFrame inp { s1 with xLast := s1.x, yLast := s1.y } w1 []) ∨
        (triggerFlag polled s1 = true ∧ ∃ s3 w2,
          computeMasksStep E { s1 with xLast := s1.x, yLast := s1.y } w1 = some (s3, w2) ∧
          r = finishFrame inp s3 w2 [{ x := s1.x, y := s1.y }])) := by
  unfold frame at h
  cases hpoll : pollEvents E window inp.events false s w with
  | none => rw [hpoll] at h; exact absurd h (by simp)
  | some p =>
    obtain ⟨polled, s1, w1⟩ := p
    rw [hpoll] at h
    refine ⟨polled, s1, w1, rfl, ?_⟩
    cases ht : triggerFlag polled s1 with
    | false =>
      left
      simp only [ht] at h
      exact ⟨rfl, (Option.some.inj h).symm⟩
    | true =>
      right
      simp only [ht, if_true] at h
      cases hstep : computeMasksStep E { s1 with xLast := s1.x, yLast := s1.y } w1 with
      | none => rw [hstep] at h; exact absurd h (by simp)
      | some q =>
        obtain ⟨s3, w2⟩ := q
        rw [hstep] at h
        exact ⟨rfl, s3, w2, rfl, (Option.some.inj h).symm⟩

theorem pollEvents_same_motion {W : Type} (E : Services W) (window : SDL_Window)
    (events : List SDL_Event) (cm : Bool) (s : LoopState) (w : W)
    (hh : s.segmentOnMove = true)
    (hev : ∀ ev ∈ events, ∃ ex ey : Int,
      ev = .mouseMotion ex ey ∧ fl (ex : ℚ) = s.x ∧ fl (ey : ℚ) = s.y) :
    pollEvents E window events cm s w = some (cm, s, w) := by
  induction events with
  | nil => rfl
  | cons ev rest ih =>
    obtain ⟨ex, ey, rfl, hx, hy⟩ := hev _ (List.mem_cons_self _ _)
    have hs : ({ s with x := fl (ex : ℚ), y := fl (ey : ℚ) } : LoopState) = s := by
      rw [hx, hy]
    have hstep : processEvent E window cm s w (.mouseMotion ex ey) = some (cm, s, w) := by
      have hdef : processEvent E window cm s w (.mouseMotion ex ey)
          = (if s.segmentOnMove
              then some (cm, { s with x := fl (ex : ℚ), y := fl (ey : ℚ) }, w)
              else some (cm, s, w)) := rfl
      rw [hdef, if_pos hh, hs]
    simp only [pollEvents, hstep, Option.some_bind]
    exact ih (fun e he => hev e (List.mem_cons_of_mem _ he))

theorem triggerFlag_eq_true (cm : Bool) (s : LoopState) :
    triggerFlag cm s = true ↔
      cm = true ∨ (s.segmentOnMove = true ∧ (s.x ≠ s.xLast ∨ s.y ≠ s.yLast)) := by
  unfold triggerFlag
  by_cases h : s.segmentOnMove = true ∧ (s.x ≠ s.xLast ∨ s.y ≠ s.yLast)
  · simp [h]
  · rw [if_neg h]
    constructor
    · intro hc; exact Or.inl hc
    · rintro (hc | hc)
      · exact hc
      · exact absurd hc h

theorem frame_tracker {W : Type} (E : Services W) (window : SDL_Window) (inp : FrameInput)
    (s : LoopState) (w : W) (r : FrameResult W) (h : frame E window inp s w = some r) :
    r.state.xLast = r.state.x ∧ r.state.yLast = r.state.y := by
  obtain ⟨polled, s1, w1, _, hcase⟩ := frame_cases E window inp s w r h
  rcases hcase with ⟨_, hr⟩ | ⟨_, s3, w2, hstep, hr⟩
  · subst hr
    exact ⟨rfl, rfl⟩
  · subst hr
    obtain ⟨hx, hy, hxl, hyl, _⟩ := computeMasksStep_tracker E _ _ (s3, w2) hstep
    exact ⟨hxl.trans hx.symm, hyl.trans hy.symm⟩

theorem frame_quiet {W : Type} (E : Services W) (window : SDL_Window) (inp : FrameInput)
    (s : LoopState) (w : W) (hxl : s.xLast = s.x) (hyl : s.yLast = s.y)
    (hh : s.segmentOnMove = true)
    (hev : ∀ ev ∈ inp.events, ∃ ex ey : Int,
      ev = .mouseMotion ex ey ∧ fl (ex : ℚ) = s.x ∧ fl (ey : ℚ) = s.y) :
    ∃ r, frame E window inp s w = some r ∧ r.computeCalls = [] ∧
      r.state.x = s.x ∧ r.state.y = s.y ∧ r.state.masks = s.masks ∧
      r.state.maskTextures = s.maskTextures ∧ r.world = w := by
  have hpoll := pollEvents_same_motion E window inp.events false s w hh hev
  have ht : triggerFlag false s = false := by
    cases hc : triggerFlag false s with
    | false => rfl
    | true =>
      rcases (triggerFlag_eq_true false s).mp hc with hf | ⟨_, hne⟩
      · exact Bool.noConfusion hf
      · rcases hne with hne | hne
        · exact absurd hxl.symm hne
        · exact absurd hyl.symm hne
  exact ⟨_, frame_of_quiet E window inp s w false s w hpoll ht, rfl, rfl, rfl, rfl, rfl, rfl⟩

/-- C6. Trigger monotonicity: at the end of every frame `xLast = x` and `yLast = y`, whether
or not the frame triggered; so after any frame, a following frame in hover mode whose batch
is empty or holds only pointer moves to the same position `(x, y)` completes without calling
`sam_compute_masks` (the frame reports no call, the world is left as it was, and under the
recording services the log of calls is unchanged), and leaves the position and the masks as
they were. -/
theorem no_retrigger_same_position {W : Type} (E : Services W) (window : SDL_Window)
    (inp : FrameInput) (s : LoopState) (w : W) (r : FrameResult W)
    (h : frame E window inp s w = some r) :
    r.state.xLast = r.state.x ∧ r.state.yLast = r.state.y ∧
    ∀ next : FrameInput, r.state.segmentOnMove = true →
      (∀ ev ∈ next.events, ∃ ex ey : Int,
        ev = .mouseMotion ex ey ∧ fl (ex : ℚ) = r.state.x ∧ fl (ey : ℚ) = r.state.y) →
      (∃ r2, frame E window next r.state r.world = some r2 ∧ r2.computeCalls = [] ∧
        r2.state.x = r.state.x ∧ r2.state.y = r.state.y ∧ r2.state.masks = r.state.masks ∧
        r2.state.maskTextures = r.state.maskTextures ∧ r2.world = r.world) ∧
      ∀ log : List (sam_image_u8 × sam_point),
        ∃ rr, frame (recording E) window next r.state (r.world, log) = some rr ∧
          rr.world = (r.world, log) := by
  obtain ⟨hx, hy⟩ := frame_tracker E window inp s w r h
  refine ⟨hx, hy, fun next hh hev =>
    ⟨frame_quiet E window next r.state r.world hx hy hh hev, fun log => ?_⟩⟩
  obtain ⟨rr, hrr, _, _, _, _, _, hw⟩ :=
    frame_quiet (recording E) window next r.state (r.world, log) hx hy hh hev
  exact ⟨rr, hrr, hw⟩

/-- C10. Trigger decision: for a frame whose batch holds only left-button presses and pointer
moves (the masks returned by `sam_compute_masks` having `nx*ny` bytes): a left-button press
sets `(x, y)` to the event's coordinates and sets `computeMasks`; a pointer move sets `(x, y)`
only when hover mode is enabled; the frame completes with `(x, y)` as tracked over the whole
batch; `sam_compute_masks` is called in the frame iff the batch contains a left-button press,
or hover mode is enabled and `(x, y)` after the batch differs from `(xLast, yLast)`; it is
called at most once, at the point `(x, y)` as it stands after the batch. The calls reported by
the frame are the calls made: when one is reported the masks kept are those that
`sam_compute_masks` returns for the current image at that point, when none is reported the
masks, their textures and the world are untouched, and under the recording services the log
of calls grows by exactly the reported points, each with the current image. -/
theorem trigger_decision {W : Type} (E : Services W) (window : SDL_Window) (inp : FrameInput)
    (s : LoopState) (w : W)
    (hE : ∀ img pt w0, ∀ m ∈ (E.sam_compute_masks img pt w0).1, m.IsMask)
    (hp : ∀ ev ∈ inp.events, isPointerEvent ev = true) :
    (∀ (cm : Bool) (ex ey : Int),
      processEvent E window cm s w (.mouseButtonDown SDL_BUTTON_LEFT ex ey)
        = some (true, { s with x := fl (ex : ℚ), y := fl (ey : ℚ) }, w)) ∧
    (∀ (cm : Bool) (ex ey : Int),
      processEvent E window cm s w (.mouseMotion ex ey)
        = some (cm,
            (if s.segmentOnMove then { s with x := fl (ex : ℚ), y := fl (ey : ℚ) } else s),
            w)) ∧
    ∃ r, frame E window inp s w = some r ∧
      (r.state.x, r.state.y) = trackPos s.segmentOnMove (s.x, s.y) inp.events ∧
      (r.computeCalls ≠ [] ↔
        ((∃ ev ∈ inp.events, isLeftPress ev = true) ∨
          (s.segmentOnMove = true ∧ (r.state.x ≠ s.xLast ∨ r.state.y ≠ s.yLast)))) ∧
      r.computeCalls.length ≤ 1 ∧
      (∀ pt ∈ r.computeCalls, pt = { x := r.state.x, y := r.state.y }) ∧
      (r.computeCalls ≠ [] →
        r.state.masks
          = (E.sam_compute_masks s.img { x := r.state.x, y := r.state.y } w).1) ∧
      (r.computeCalls = [] →
        r.state.masks = s.masks ∧ r.state.maskTextures = s.maskTextures ∧ r.world = w) ∧
      ∀ log : List (sam_image_u8 × sam_point),
        ∃ rr, frame (recording E) window inp s (w, log) = some rr ∧
          rr.state = r.state ∧ rr.world.1 = r.world ∧
          rr.world.2 = log ++ r.computeCalls.map (fun pt => (s.img, pt)) := by
  refine ⟨fun cm ex ey => by simp [processEvent], fun cm ex ey => ?_, ?_⟩
  · cases hh : s.segmentOnMove with
    | true => simp [processEvent, hh]
    | false => simp [processEvent, hh]
  · have hpoll := pollEvents_pointer E window inp.events hp false s w
    rw [Bool.false_or] at hpoll
    have hpollR : ∀ log, pollEvents (recording E) window inp.events false s (w, log) = _ :=
      fun log => pollEvents_pointer (recording E) window inp.events hp false s (w, log)
    simp only [Bool.false_or] at hpollR
    have hflag := triggerFlag_eq_true (inp.events.any isLeftPress)
      { s with x := (trackPos s.segmentOnMove (s.x, s.y) inp.events).1,
               y := (trackPos s.segmentOnMove (s.x, s.y) inp.events).2 }
    rw [List.any_eq_true] at hflag
    cases ht : triggerFlag (inp.events.any isLeftPress)
        { s with x := (trackPos s.segmentOnMove (s.x, s.y) inp.events).1,
                 y := (trackPos s.segmentOnMove (s.x, s.y) inp.events).2 } with
    | true =>
      obtain ⟨s3, w2, hstep, hx3, hy3, hm3⟩ := computeMasksStep_spec E hE
        { s with x := (trackPos s.segmentOnMove (s.x, s.y) inp.events).1,
                 y := (trackPos s.segmentOnMove (s.x, s.y) inp.events).2,
                 xLast := (trackPos s.segmentOnMove (s.x, s.y) inp.events).1,
                 yLast := (trackPos s.segmentOnMove (s.x, s.y) inp.events).2 } w
      have hf := frame_of_trigger E window inp s w _ _ w s3 w2 hpoll ht hstep
      have hpos : (finishFrame inp s3 w2
          [({ x := (trackPos s.segmentOnMove (s.x, s.y) inp.events).1,
              y := (trackPos s.segmentOnMove (s.x, s.y) inp.events).2 } : sam_point)]).state.x
            = (trackPos s.segmentOnMove (s.x, s.y) inp.events).1 := hx3
      have hposy : (finishFrame inp s3 w2
          [({ x := (trackPos s.segmentOnMove (s.x, s.y) inp.events).1,
              y := (trackPos s.segmentOnMove (s.x, s.y) inp.events).2 } : sam_point)]).state.y
            = (trackPos s.segmentOnMove (s.x, s.y) inp.events).2 := hy3
      refine ⟨_, hf, ?_, ?_, ?_, ?_, ?_, ?_, ?_⟩
      · rw [hpos, hposy]
      · rw [hpos, hposy]
        constructor
        · intro _
          exact hflag.mp ht
        · intro _
          simp [finishFrame]
      · simp [finishFrame]
      · intro pt hpt
        rw [hpos, hposy]
        simpa [finishFrame] using hpt
      · intro _
        rw [hpos, hposy]
        exact hm3
      · intro hnil
        exact absurd hnil (by simp [finishFrame])
      · intro log
        have hstepR := computeMasksStep_recording E
          { s with x := (trackPos s.segmentOnMove (s.x, s.y) inp.events).1,
                   y := (trackPos s.segmentOnMove (s.x, s.y) inp.events).2,
                   xLast := (trackPos s.segmentOnMove (s.x, s.y) inp.events).1,
                   yLast := (trackPos s.segmentOnMove (s.x, s.y) inp.events).2 } w log
        rw [hstep] at hstepR
        exact ⟨_, frame_of_trigger (recording E) window inp s (w, log) _ _ (w, log) s3 _
          (hpollR log) ht hstepR, rfl, rfl, rfl⟩
    | false =>
      have hf := frame_of_quiet E window inp s w _ _ w hpoll ht
      refine ⟨_, hf, rfl, ?_, by simp [finishFrame], by simp [finishFrame], ?_, ?_, ?_⟩
      · constructor
        · intro hne
          exact absurd rfl hne
        · intro hc
          rw [hflag.mpr hc] at ht
          exact Bool.noConfusion ht
      · intro hne
        exact absurd rfl hne
      · intro _
        exact ⟨rfl, rfl, rfl⟩
      · intro log
        exact ⟨_, frame_of_quiet (recording E) window inp s (w, log) _ _ (w, log)
          (hpollR log) ht, rfl, rfl, by simp [finishFrame]⟩

theorem demo_moved :
    frame (demoServices ⟨1920, 1080⟩ true [mask1x1]) 0 moveInput hoverState 1
      = some movedResult := by
  decide!

/-- Witness of C6: in hover mode the pointer moves from `(0, 0)` to `(10, 10)`; the frame
triggers, and a further frame with moves to `(10, 10)` does not. -/
theorem no_retrigger_same_position_witness :
    frame (demoServices ⟨1920, 1080⟩ true [mask1x1]) 0 moveInput hoverState 1
      = some movedResult ∧
    movedResult.state.xLast = movedResult.state.x ∧
    movedResult.state.yLast = movedResult.state.y ∧
    ∀ next : FrameInput, movedResult.state.segmentOnMove = true →
      (∀ ev ∈ next.events, ∃ ex ey : Int, ev = .mouseMotion ex ey ∧
        fl (ex : ℚ) = movedResult.state.x ∧ fl (ey : ℚ) = movedResult.state.y) →
      (∃ r2, frame (demoServices ⟨1920, 1080⟩ true [mask1x1]) 0 next movedResult.state
          movedResult.world = some r2 ∧ r2.computeCalls = [] ∧
        r2.state.x = movedResult.state.x ∧ r2.state.y = movedResult.state.y ∧
        r2.state.masks = movedResult.state.masks ∧
        r2.state.maskTextures = movedResult.state.maskTextures ∧
        r2.world = movedResult.world) ∧
      ∀ log : List (sam_image_u8 × sam_point),
        ∃ rr, frame (recording (demoServices ⟨1920, 1080⟩ true [mask1x1])) 0 next
            movedResult.state (movedResult.world, log) = some rr ∧
          rr.world = (movedResult.world, log) :=
  ⟨demo_moved,
    no_retrigger_same_position (demoServices ⟨1920, 1080⟩ true [mask1x1]) 0 moveInput
      hoverState 1 movedResult demo_moved⟩

theorem demo_masks_ok (dm : SDL_DisplayMode) (b : Bool) :
    ∀ (img : sam_image_u8) (pt : sam_point) (w0 : Nat),
      ∀ m ∈ ((demoServices dm b [mask1x1]).sam_compute_masks img pt w0).1, m.IsMask := by
  intro img pt w0 m hm
  have : m = mask1x1 := by simpa [demoServices] using hm
  subst this
  simp [mask1x1, sam_image_u8.IsMask]

theorem demo_click_recorded :
    (frame (recording (demoServices ⟨1920, 1080⟩ true [mask1x1])) 0 clickInput
        (initLoopState img2x2 0) (1, [])).map
      (fun r => (r.world.2, r.computeCalls, r.state.masks))
      = some ([(img2x2, { x := 5, y := 7 })], [{ x := 5, y := 7 }], [mask1x1]) := by
  decide!

/-- Witness of C10: a left click at `(5, 7)` followed by a move to `(1, 2)`, hover off. -/
theorem trigger_decision_witness :
    (∀ ev ∈ clickInput.events, isPointerEvent ev = true) ∧
    (∀ (cm : Bool) (ex ey : Int),
      processEvent (demoServices ⟨1920, 1080⟩ true [mask1x1]) 0 cm (initLoopState img2x2 0) 1
          (.mouseButtonDown SDL_BUTTON_LEFT ex ey)
        = some (true, { initLoopState img2x2 0 with x := fl (ex : ℚ), y := fl (ey : ℚ) }, 1)) ∧
    (∀ (cm : Bool) (ex ey : Int),
      processEvent (demoServices ⟨1920, 1080⟩ true [mask1x1]) 0 cm (initLoopState img2x2 0) 1
          (.mouseMotion ex ey)
        = some (cm, (if (initLoopState img2x2 0).segmentOnMove
            then { initLoopState img2x2 0 with x := fl (ex : ℚ), y := fl (ey : ℚ) }
            else initLoopState img2x2 0), 1)) ∧
    ∃ r, frame (demoServices ⟨1920, 1080⟩ true [mask1x1]) 0 clickInput
        (initLoopState img2x2 0) 1 = some r ∧
      (r.state.x, r.state.y) = trackPos (initLoopState img2x2 0).segmentOnMove
        ((initLoopState img2x2 0).x, (initLoopState img2x2 0).y) clickInput.events ∧
      (r.computeCalls ≠ [] ↔
        ((∃ ev ∈ clickInput.events, isLeftPress ev = true) ∨
          ((initLoopState img2x2 0).segmentOnMove = true ∧
            (r.state.x ≠ (initLoopState img2x2 0).xLast ∨
              r.state.y ≠ (initLoopState img2x2 0).yLast)))) ∧
      r.computeCalls.length ≤ 1 ∧
      (∀ pt ∈ r.computeCalls, pt = { x := r.state.x, y := r.state.y }) ∧
      (r.computeCalls ≠ [] →
        r.state.masks
          = ((demoServices ⟨1920, 1080⟩ true [mask1x1]).sam_compute_masks
              (initLoopState img2x2 0).img { x := r.state.x, y := r.state.y } 1).1) ∧
      (r.computeCalls = [] →
        r.state.masks = (initLoopState img2x2 0).masks ∧
          r.state.maskTextures = (initLoopState img2x2 0).maskTextures ∧ r.world = 1) ∧
      ∀ log : List (sam_image_u8 × sam_point),
        ∃ rr, frame (recording (demoServices ⟨1920, 1080⟩ true [mask1x1])) 0 clickInput
            (initLoopState img2x2 0) (1, log) = some rr ∧
          rr.state = r.state ∧ rr.world.1 = r.world ∧
          rr.world.2 = log ++ r.computeCalls.map (fun pt => ((initLoopState img2x2 0).img, pt)) :=
  ⟨by decide,
    trigger_decision (demoServices ⟨1920, 1080⟩ true [mask1x1]) 0 clickInput
      (initLoopState img2x2 0) 1 (demo_masks_ok _ _) (by decide)⟩

/-! ## Dropping a file whose encoding fails -/

theorem processEvent_dropFile {W : Type} (E : Services W) (window : SDL_Window)
    (computeMasks : Bool) (s : LoopState) (w : W) (file : String) (loaded new_img : sam_image_u8)
    (ok : Bool) (hload : load_image_from_file E file w = some loaded)
    (hfit : downscale_img_to_screen E loaded (some window) w = some (ok, new_img)) :
    processEvent E window computeMasks s w (.dropFile file)
      = some (true,
          { s with tex := (E.createGLTexture new_img (E.sam_compute_embd_img new_img w).2).1,
                   img := new_img },
          (E.createGLTexture new_img (E.sam_compute_embd_img new_img w).2).2) := by
  simp [processEvent, hload, hfit]

/-- C8 fails on the code: a file is dropped, it decodes to the 1×1 image `[10, 20, 30]`, and
`sam_compute_embd_img` returns `false`; after the event (and after the frame) the current
image is the dropped image and the base texture is a new one, not those held before. -/
theorem drop_encode_failure_installs_image :
    ((demoServices ⟨1920, 1080⟩ false []).sam_compute_embd_img
        { nx := 1, ny := 1, data := [10, 20, 30] } 1).1 = false ∧
    (processEvent (demoServices ⟨1920, 1080⟩ false []) 0 false (initLoopState img2x2 0) 1
        (.dropFile "new.png")).map (fun r => (r.1, r.2.1.img, r.2.1.tex))
      = some (true, { nx := 1, ny := 1, data := [10, 20, 30] }, 1) ∧
    (frame (demoServices ⟨1920, 1080⟩ false []) 0
        { events := [.dropFile "new.png"], clickSegmentOnMove := false,
          clickOutputMultipleMasks := false }
        (initLoopState img2x2 0) 1).map (fun r => (r.state.img, r.state.tex))
      = some ({ nx := 1, ny := 1, data := [10, 20, 30] }, 1) ∧
    (initLoopState img2x2 0).img ≠ { nx := 1, ny := 1, data := [10, 20, 30] } ∧
    (initLoopState img2x2 0).tex ≠ 1 := by
  refine ⟨rfl, ?_, ?_, ?_, ?_⟩
  · decide!
  · decide!
  · decide!
  · decide

end Sam
